import Mathlib

/-!
Shallow embedding of the separate-chaining hash map in `src/hash_map.c`.

Modelling conventions:
* C pointers (`void *`) are modelled as `Nat`, with `0` playing the role of `NULL`.
* The user-supplied hash function is `Nat → Nat` (hash of the key reference;
  memory is never mutated, so hashing through the pointer is a function of the
  reference) and the compare function is `Nat → Nat → Int` (`0` means equal),
  exactly the C function-pointer shapes.
* `malloc`/`calloc` success is an explicit `Bool` parameter at each allocation
  point, so allocation-failure paths are part of the model.
* Destructor callbacks (`key_free_func` / `value_free_func`) are modelled by
  presence flags plus an explicit event trace (`FreeEvent` list) recording each
  invocation, in invocation order.
* A possibly-NULL `map_t *` argument is an `Option MapT`.
* The load-factor test `(double)(size + 1) / capacity > 0.75` is modelled by
  the exact rational comparison `(size + 1) * 4 > capacity * 3`; for the
  reachable states (capacity a power of two times the initial capacity, far
  below 2^53) the C double division is exact, so the two tests agree.
-/

/-- `map_result_t` from `hash_map.h`. -/
inductive MapResult where
  | Success
  | Failure
  | KeyNotFound
  | AllocationError
deriving DecidableEq, Repr

/-- One chain node (`map_node_t`): key pointer and value pointer.  The `next`
pointer of the C struct is represented by the position in the chain list. -/
structure MapNode where
  key : Nat
  value : Nat
deriving DecidableEq, Repr

/-- `struct map_t`: bucket array (each bucket is its chain, head first),
`capacity`, `size`, the two callbacks, and the two optional destructor flags. -/
structure MapT where
  buckets : List (List MapNode)
  capacity : Nat
  size : Nat
  hash_func : Nat → Nat
  compare_func : Nat → Nat → Int
  has_key_free : Bool
  has_value_free : Bool

/-- A destructor invocation, as recorded in the event trace. -/
inductive FreeEvent where
  | freeKey (p : Nat)
  | freeValue (p : Nat)
deriving DecidableEq, Repr

/-- `#define INITIAL_CAPACITY 16` -/
def INITIAL_CAPACITY : Nat := 16

/-- `#define RESIZE_FACTOR 2` -/
def RESIZE_FACTOR : Nat := 2

/-- `_map_node_destroy`: the destructor invocations it performs (key destructor
if configured and key non-NULL, then value destructor if configured and value
non-NULL). -/
def nodeDestroyEvents (m : MapT) (node : MapNode) : List FreeEvent :=
  (if m.has_key_free ∧ node.key ≠ 0 then [FreeEvent.freeKey node.key] else []) ++
  (if m.has_value_free ∧ node.value ≠ 0 then [FreeEvent.freeValue node.value] else [])

/-- `_map_get_bucket_index`: `hash_func(key) % capacity`. -/
def _map_get_bucket_index (m : MapT) (key : Nat) : Nat :=
  m.hash_func key % m.capacity

/-- One step of the rehash loop in `_map_resize`: push one node at the head of
its freshly computed bucket and bump `size`. -/
def rehashNode (m : MapT) (node : MapNode) : MapT :=
  let idx := _map_get_bucket_index m node.key
  { m with buckets := m.buckets.set idx (node :: m.buckets.getD idx []),
           size := m.size + 1 }

/-- Inner rehash loop of `_map_resize`: walk one old chain in order. -/
def rehashChain (m : MapT) (chain : List MapNode) : MapT :=
  chain.foldl rehashNode m

/-- Outer rehash loop of `_map_resize`: walk the old buckets in index order. -/
def rehashAll (m : MapT) (oldBuckets : List (List MapNode)) : MapT :=
  oldBuckets.foldl rehashChain m

/-- `_map_resize`.  `allocOk` models whether the `calloc` of the new bucket
array succeeds. -/
def _map_resize (allocOk : Bool) (m : MapT) (new_capacity : Nat) :
    MapT × MapResult :=
  if new_capacity < m.size then
    (m, MapResult.Failure)
  else if allocOk = false then
    (m, MapResult.AllocationError)
  else
    let emptied := { m with capacity := new_capacity,
                            buckets := List.replicate new_capacity [],
                            size := 0 }
    (rehashAll emptied m.buckets, MapResult.Success)

/-- `map_create`.  `structAllocOk` / `bucketsAllocOk` model the two `malloc` /
`calloc` calls; `none` for a callback models a NULL function pointer. -/
def map_create (structAllocOk bucketsAllocOk : Bool) (initial_capacity : Nat)
    (hash_fn : Option (Nat → Nat)) (compare_fn : Option (Nat → Nat → Int))
    (has_key_free has_value_free : Bool) : Option MapT :=
  match hash_fn, compare_fn with
  | some hf, some cf =>
    if structAllocOk = false then none
    else
      let capacity := if initial_capacity > 0 then initial_capacity else INITIAL_CAPACITY
      if bucketsAllocOk = false then none
      else some { buckets := List.replicate capacity [],
                  capacity := capacity,
                  size := 0,
                  hash_func := hf,
                  compare_func := cf,
                  has_key_free := has_key_free,
                  has_value_free := has_value_free }
  | _, _ => none

/-- The update scan of `map_insert`: look for the first chain node whose key
matches under `compare_func`; if found, return the updated chain together with
the destructor events the C code emits (value destructor if configured and the
old value is non-NULL, then key destructor if configured and the old key
reference differs from the new one). -/
def updateChain (m : MapT) (key value : Nat) :
    List MapNode → Option (List MapNode × List FreeEvent)
  | [] => none
  | node :: rest =>
    if m.compare_func node.key key = 0 then
      some (⟨key, value⟩ :: rest,
        (if m.has_value_free ∧ node.value ≠ 0 then [FreeEvent.freeValue node.value] else []) ++
        (if m.has_key_free ∧ node.key ≠ key then [FreeEvent.freeKey node.key] else []))
    else
      match updateChain m key value rest with
      | some (rest2, events) => some (node :: rest2, events)
      | none => none

/-- The load-factor check and conditional growth at the top of `map_insert`:
`if ((double)(map->size + 1) / map->capacity > LOAD_FACTOR_THRESHOLD)` then
`_map_resize(map, map->capacity * RESIZE_FACTOR)`. -/
def insertMaybeResize (allocOk : Bool) (m : MapT) : MapT × MapResult :=
  if (m.size + 1) * 4 > m.capacity * 3 then
    _map_resize allocOk m (m.capacity * RESIZE_FACTOR)
  else (m, MapResult.Success)

/-- The body of `map_insert` after the conditional resize: scan the target
chain for an existing key (update in place), else push a new node at the chain
head.  `nodeAllocOk` models the `malloc` inside `_map_node_create`. -/
def insertBody (nodeAllocOk : Bool) (m1 : MapT) (key value : Nat) :
    Option MapT × MapResult × List FreeEvent :=
  let index := _map_get_bucket_index m1 key
  let chain := m1.buckets.getD index []
  match updateChain m1 key value chain with
  | some (chain2, events) =>
    (some { m1 with buckets := m1.buckets.set index chain2 },
     MapResult.Success, events)
  | none =>
    if nodeAllocOk = false then (some m1, MapResult.AllocationError, [])
    else
      (some { m1 with buckets := m1.buckets.set index (⟨key, value⟩ :: chain),
                      size := m1.size + 1 },
       MapResult.Success, [])

/-- `map_insert`.  `resizeAllocOk` models the `calloc` inside `_map_resize`,
`nodeAllocOk` the `malloc` inside `_map_node_create`.  Returns the map after
the call, the result code, and the destructor event trace. -/
def map_insert (resizeAllocOk nodeAllocOk : Bool) (mo : Option MapT)
    (key value : Nat) : Option MapT × MapResult × List FreeEvent :=
  match mo with
  | none => (none, MapResult.Failure, [])
  | some m =>
    if key = 0 then (some m, MapResult.Failure, [])
    else
      let resized := insertMaybeResize resizeAllocOk m
      if resized.2 ≠ MapResult.Success then (some resized.1, resized.2, [])
      else insertBody nodeAllocOk resized.1 key value

/-- The lookup scan of `map_get`: value of the first matching node, or `0`
(NULL) when none matches. -/
def chainFind (m : MapT) (key : Nat) : List MapNode → Nat
  | [] => 0
  | node :: rest =>
    if m.compare_func node.key key = 0 then node.value
    else chainFind m key rest

/-- `map_get`. -/
def map_get (mo : Option MapT) (key : Nat) : Nat :=
  match mo with
  | none => 0
  | some m =>
    if key = 0 then 0
    else chainFind m key (m.buckets.getD (_map_get_bucket_index m key) [])

/-- `map_contains`: `map_get(map, key) != NULL`. -/
def map_contains (mo : Option MapT) (key : Nat) : Nat :=
  if map_get mo key ≠ 0 then 1 else 0

/-- The unlink scan of `map_delete`: remove the first matching node, returning
the new chain and the `_map_node_destroy` events, or `none` when no node
matches. -/
def chainDelete (m : MapT) (key : Nat) :
    List MapNode → Option (List MapNode × List FreeEvent)
  | [] => none
  | node :: rest =>
    if m.compare_func node.key key = 0 then
      some (rest, nodeDestroyEvents m node)
    else
      match chainDelete m key rest with
      | some (rest2, events) => some (node :: rest2, events)
      | none => none

/-- `map_delete`. -/
def map_delete (mo : Option MapT) (key : Nat) :
    Option MapT × MapResult × List FreeEvent :=
  match mo with
  | none => (none, MapResult.Failure, [])
  | some m =>
    if key = 0 then (some m, MapResult.Failure, [])
    else
      let index := _map_get_bucket_index m key
      match chainDelete m key (m.buckets.getD index []) with
      | some (chain2, events) =>
        (some { m with buckets := m.buckets.set index chain2, size := m.size - 1 },
         MapResult.Success, events)
      | none => (some m, MapResult.KeyNotFound, [])

/-- `map_size`. -/
def map_size (mo : Option MapT) : Nat :=
  match mo with
  | some m => m.size
  | none => 0

/-- The inner chain loop of `map_iterate` with the visitor's `user_data`
threaded through (the C visitor communicates through `user_data` and its
return code).  Returns the final `user_data`, the trace of `(key, value)`
pairs the visitor was called on, and whether the visitor requested a stop. -/
def iterChain {σ : Type} (f : Nat → Nat → σ → σ × Int) :
    List MapNode → σ → σ × List (Nat × Nat) × Bool
  | [], ud => (ud, [], false)
  | node :: rest, ud =>
    let step := f node.key node.value ud
    if step.2 ≠ 0 then (step.1, [(node.key, node.value)], true)
    else
      let tail := iterChain f rest step.1
      (tail.1, (node.key, node.value) :: tail.2.1, tail.2.2)

/-- The outer bucket loop of `map_iterate`, in increasing bucket-index order. -/
def iterBuckets {σ : Type} (f : Nat → Nat → σ → σ × Int) :
    List (List MapNode) → σ → σ × List (Nat × Nat) × Bool
  | [], ud => (ud, [], false)
  | chain :: more, ud =>
    let head := iterChain f chain ud
    if head.2.2 then head
    else
      let rest := iterBuckets f more head.1
      (rest.1, head.2.1 ++ rest.2.1, rest.2.2)

/-- `map_iterate`.  A NULL callback is `none`.  Returns the final `user_data`,
the visit trace, and the result code (`MAP_FAILURE` both when the callback
stopped the iteration and on invalid input, as in the C code). -/
def map_iterate {σ : Type} (mo : Option MapT)
    (callback : Option (Nat → Nat → σ → σ × Int)) (ud : σ) :
    σ × List (Nat × Nat) × MapResult :=
  match mo, callback with
  | none, _ => (ud, [], MapResult.Failure)
  | _, none => (ud, [], MapResult.Failure)
  | some m, some f =>
    let r := iterBuckets f m.buckets ud
    (r.1, r.2.1, if r.2.2 then MapResult.Failure else MapResult.Success)

/-! ## Derived notions and invariants -/

/-- All live entries of the map, in iteration order (increasing bucket index,
then chain order within a bucket). -/
def MapT.nodes (m : MapT) : List MapNode := m.buckets.flatten

/-- Structural well-formedness: the bucket array really has `capacity` slots,
`capacity` is positive, and `size` counts the live entries. -/
def BasicInv (m : MapT) : Prop :=
  m.buckets.length = m.capacity ∧ 0 < m.capacity ∧ m.size = m.nodes.length

/-- The load-factor invariant `size / capacity ≤ 0.75`, stated exactly over
the naturals as `4 * size ≤ 3 * capacity`. -/
def LoadInv (m : MapT) : Prop := 4 * m.size ≤ 3 * m.capacity

/-- Every entry sits in the bucket its key currently hashes to. -/
def Placed (m : MapT) : Prop :=
  ∀ i, i < m.buckets.length →
    ∀ node ∈ m.buckets.getD i [], m.hash_func node.key % m.capacity = i

/-- No two live entries have keys that are equal under `compare_func`. -/
def DistinctKeys (m : MapT) : Prop :=
  m.nodes.Pairwise (fun a b => m.compare_func a.key b.key ≠ 0)

/-- The reachable-state invariant of the hash map. -/
def MapInv (m : MapT) : Prop := BasicInv m ∧ LoadInv m ∧ Placed m ∧ DistinctKeys m

/-- The documented contract on the user-supplied callbacks (spec §6): compare
is an equivalence and equal keys hash equally. -/
def GoodMapFns (m : MapT) : Prop :=
  (∀ a, m.compare_func a a = 0) ∧
  (∀ a b, m.compare_func a b = 0 → m.compare_func b a = 0) ∧
  (∀ a b c, m.compare_func a b = 0 → m.compare_func b c = 0 →
    m.compare_func a c = 0) ∧
  (∀ a b, m.compare_func a b = 0 → m.hash_func a = m.hash_func b)

/-- The two map structures agree on all four callback fields. -/
def SameFns (m m2 : MapT) : Prop :=
  m2.hash_func = m.hash_func ∧ m2.compare_func = m.compare_func ∧
  m2.has_key_free = m.has_key_free ∧ m2.has_value_free = m.has_value_free

/-! ## Operation sequences -/

/-- A mutating call against a live map (allocation succeeding). -/
inductive MapOp where
  | ins (k v : Nat)
  | del (k : Nat)

/-- `map_insert` with all allocations succeeding, viewed as a state
transformer on a live map (the call never returns a NULL map for a live
input). -/
def insertStep (m : MapT) (k v : Nat) : MapT :=
  match (map_insert true true (some m) k v).1 with
  | some m2 => m2
  | none => m

/-- `map_delete` viewed as a state transformer on a live map. -/
def deleteStep (m : MapT) (k : Nat) : MapT :=
  match (map_delete (some m) k).1 with
  | some m2 => m2
  | none => m

def applyOp (m : MapT) : MapOp → MapT
  | MapOp.ins k v => insertStep m k v
  | MapOp.del k => deleteStep m k

def applyOps (m : MapT) (ops : List MapOp) : MapT := ops.foldl applyOp m

/-- The operation neither deletes nor overwrites the entry whose key matches
`k` under `cmp`: its own key does not compare equal to `k`. -/
def avoidsKey (cmp : Nat → Nat → Int) (k : Nat) : MapOp → Prop
  | MapOp.ins k2 _ => cmp k2 k ≠ 0
  | MapOp.del k2 => cmp k2 k ≠ 0

/-- The states seen at every point of a sequence of `map_insert` calls
(initial state included). -/
def insertTrace (m : MapT) (kvs : List (Nat × Nat)) : List MapT :=
  kvs.scanl (fun s kv => insertStep s kv.1 kv.2) m

/-! ## Concrete visitors and fixtures -/

/-- A visitor that counts its calls in `user_data` and always continues. -/
def contVisitor : Nat → Nat → Nat → Nat × Int := fun _ _ n => (n + 1, 0)

/-- A visitor that counts its calls in `user_data` and returns the non-zero
stop sentinel exactly on its `k`-th call. -/
def stopAtVisitor (k : Nat) : Nat → Nat → Nat → Nat × Int :=
  fun _ _ n => (n + 1, if n + 1 = k then 1 else 0)

/-- The integer-identity hash used by concrete instances (the shape of
`hash_int`). -/
def natHash : Nat → Nat := fun k => k

/-- The subtraction comparison used by concrete instances (the shape of
`compare_int`). -/
def natCmp : Nat → Nat → Int := fun a b => (a : Int) - (b : Int)

/-- A live map holding the single entry key 1 ↦ value NULL, with both
destructors configured (capacity 8 so that a further insert does not trigger
a resize). -/
def nullValMap : MapT :=
  { buckets := [[], [⟨1, 0⟩], [], [], [], [], [], []],
    capacity := 8, size := 1,
    hash_func := natHash, compare_func := natCmp,
    has_key_free := true, has_value_free := true }

/-- A live map holding the single entry key 1 ↦ value 3, with both
destructors configured, capacity 8. -/
def oneEntryMap : MapT :=
  { buckets := [[], [⟨1, 3⟩], [], [], [], [], [], []],
    capacity := 8, size := 1,
    hash_func := natHash, compare_func := natCmp,
    has_key_free := true, has_value_free := true }

/-- A freshly created empty map of capacity 16, no destructors. -/
def emptyMap16 : MapT :=
  { buckets := List.replicate 16 [],
    capacity := 16, size := 0,
    hash_func := natHash, compare_func := natCmp,
    has_key_free := false, has_value_free := false }

/-- A capacity-2 map holding one entry, so that the next insert crosses the
0.75 load-factor threshold and triggers a resize. -/
def fullMap2 : MapT :=
  { buckets := [[], [⟨1, 7⟩]],
    capacity := 2, size := 1,
    hash_func := natHash, compare_func := natCmp,
    has_key_free := false, has_value_free := false }

/-- A capacity-8 map with two entries in one bucket (keys 1 and 9 both hash
to bucket 1 under the identity hash mod 8), chain head first. -/
def chainMap8 : MapT :=
  { buckets := [[], [⟨9, 20⟩, ⟨1, 10⟩], [], [], [], [], [], []],
    capacity := 8, size := 2,
    hash_func := natHash, compare_func := natCmp,
    has_key_free := false, has_value_free := false }

/-! ## List helper lemmas -/

theorem getD_set_self {α : Type} (l : List α) {i : Nat} (h : i < l.length)
    (x d : α) : (l.set i x).getD i d = x := by
  simp [List.getD_eq_getElem?_getD, List.getElem?_set_self h]

theorem getD_set_ne {α : Type} (l : List α) {i j : Nat} (h : i ≠ j)
    (x d : α) : (l.set i x).getD j d = l.getD j d := by
  simp [List.getD_eq_getElem?_getD, List.getElem?_set_ne h]

theorem getD_of_ge {α : Type} (l : List α) {i : Nat} (h : l.length ≤ i)
    (d : α) : l.getD i d = d := by
  simp [List.getD_eq_getElem?_getD, List.getElem?_eq_none h]

theorem getD_replicate_nil {α : Type} (n i : Nat) :
    (List.replicate n ([] : List α)).getD i [] = [] := by
  rcases Nat.lt_or_ge i n with h | h
  · simp [List.getD_eq_getElem?_getD, List.getElem?_replicate, h]
  · exact getD_of_ge _ (by rw [List.length_replicate]; exact h) _

theorem flatten_replicate_nil {α : Type} (n : Nat) :
    (List.replicate n ([] : List α)).flatten = [] := by
  induction n with
  | zero => rfl
  | succ k ih => rw [List.replicate_succ, List.flatten_cons, ih, List.nil_append]

/-- Splitting a list around position `i`: the original and the updated list
share a common frame. -/
theorem set_decomp {α : Type} (d : α) :
    ∀ (l : List α) (i : Nat), i < l.length → ∀ x : α,
    ∃ l1 l2, l = l1 ++ (l.getD i d) :: l2 ∧ l.set i x = l1 ++ x :: l2 ∧
      l1.length = i := by
  intro l
  induction l with
  | nil => intro i h; simp at h
  | cons a as ih =>
    intro i h x
    match i with
    | 0 => exact ⟨[], as, by simp, by simp, rfl⟩
    | Nat.succ n =>
      obtain ⟨l1, l2, h1, h2, h3⟩ := ih n (by simpa using h) x
      refine ⟨a :: l1, l2, ?_, ?_, by simp [h3]⟩
      · rw [List.getD_cons_succ]
        conv_lhs => rw [h1]
        rw [List.cons_append]
      · rw [List.set_cons_succ]
        conv_lhs => rw [h2]
        rw [List.cons_append]

theorem getD_mem_of_lt {α : Type} (l : List α) {i : Nat} (h : i < l.length)
    (d : α) : l.getD i d ∈ l := by
  rw [List.getD_eq_getElem?_getD, List.getElem?_eq_getElem h]
  exact List.getElem_mem h

/-! ## Chain-scan characterizations -/

theorem updateChain_eq_none {m : MapT} {k v : Nat} :
    ∀ {chain : List MapNode},
    updateChain m k v chain = none ↔ ∀ n ∈ chain, m.compare_func n.key k ≠ 0 := by
  intro chain
  induction chain with
  | nil => simp [updateChain]
  | cons node rest ih =>
    by_cases h : m.compare_func node.key k = 0
    · simp only [updateChain, if_pos h]
      constructor
      · intro hc; cases hc
      · intro hall; exact absurd h (hall node (by simp))
    · simp only [updateChain, if_neg h]
      rcases he : updateChain m k v rest with _ | ⟨rest2, events⟩
      · simp only [List.mem_cons]
        constructor
        · intro _ n hn
          rcases hn with rfl | hn
          · exact h
          · exact (ih.mp he) n hn
        · intro _; trivial
      · simp only [List.mem_cons]
        constructor
        · intro hc; cases hc
        · intro hall
          have : updateChain m k v rest = none :=
            ih.mpr (fun n hn => hall n (Or.inr hn))
          rw [this] at he; cases he

theorem updateChain_spec {m : MapT} {k v : Nat} :
    ∀ (pre : List MapNode) (node : MapNode) (post : List MapNode),
    (∀ n ∈ pre, m.compare_func n.key k ≠ 0) →
    m.compare_func node.key k = 0 →
    updateChain m k v (pre ++ node :: post) =
      some (pre ++ (⟨k, v⟩ : MapNode) :: post,
        (if m.has_value_free ∧ node.value ≠ 0 then [FreeEvent.freeValue node.value] else []) ++
        (if m.has_key_free ∧ node.key ≠ k then [FreeEvent.freeKey node.key] else [])) := by
  intro pre
  induction pre with
  | nil => intro node post _ hmatch; simp [updateChain, hmatch]
  | cons a as ih =>
    intro node post hpre hmatch
    have ha : m.compare_func a.key k ≠ 0 := hpre a (by simp)
    have hrec := ih node post (fun n hn => hpre n (by simp [hn])) hmatch
    simp only [List.cons_append, updateChain, if_neg ha, List.append_eq, hrec]

theorem updateChain_eq_some {m : MapT} {k v : Nat} :
    ∀ {chain : List MapNode} {out : List MapNode × List FreeEvent},
    updateChain m k v chain = some out →
    ∃ pre node post, chain = pre ++ node :: post ∧
      (∀ n ∈ pre, m.compare_func n.key k ≠ 0) ∧
      m.compare_func node.key k = 0 ∧
      out = (pre ++ (⟨k, v⟩ : MapNode) :: post,
        (if m.has_value_free ∧ node.value ≠ 0 then [FreeEvent.freeValue node.value] else []) ++
        (if m.has_key_free ∧ node.key ≠ k then [FreeEvent.freeKey node.key] else [])) := by
  intro chain
  induction chain with
  | nil => intro out h; simp [updateChain] at h
  | cons a rest ih =>
    intro out h
    by_cases ha : m.compare_func a.key k = 0
    · refine ⟨[], a, rest, by simp, by simp, ha, ?_⟩
      simp only [updateChain, if_pos ha, Option.some_inj] at h
      simpa using h.symm
    · simp only [updateChain, if_neg ha] at h
      rcases he : updateChain m k v rest with _ | ⟨rest2, events⟩
      · rw [he] at h; cases h
      · rw [he] at h
        obtain ⟨pre, node, post, hc, hpre, hmatch, hout⟩ := ih he
        refine ⟨a :: pre, node, post, by simp [hc], ?_, hmatch, ?_⟩
        · intro n hn
          rcases List.mem_cons.mp hn with rfl | hn
          · exact ha
          · exact hpre n hn
        · cases h
          rw [Prod.mk.injEq] at hout
          simp [hout.1, hout.2]

theorem chainDelete_eq_none {m : MapT} {k : Nat} :
    ∀ {chain : List MapNode},
    chainDelete m k chain = none ↔ ∀ n ∈ chain, m.compare_func n.key k ≠ 0 := by
  intro chain
  induction chain with
  | nil => simp [chainDelete]
  | cons node rest ih =>
    by_cases h : m.compare_func node.key k = 0
    · simp only [chainDelete, if_pos h]
      constructor
      · intro hc; cases hc
      · intro hall; exact absurd h (hall node (by simp))
    · simp only [chainDelete, if_neg h]
      rcases he : chainDelete m k rest with _ | ⟨rest2, events⟩
      · simp only [List.mem_cons]
        constructor
        · intro _ n hn
          rcases hn with rfl | hn
          · exact h
          · exact (ih.mp he) n hn
        · intro _; trivial
      · simp only [List.mem_cons]
        constructor
        · intro hc; cases hc
        · intro hall
          have : chainDelete m k rest = none :=
            ih.mpr (fun n hn => hall n (Or.inr hn))
          rw [this] at he; cases he

theorem chainDelete_eq_some {m : MapT} {k : Nat} :
    ∀ {chain : List MapNode} {out : List MapNode × List FreeEvent},
    chainDelete m k chain = some out →
    ∃ pre node post, chain = pre ++ node :: post ∧
      (∀ n ∈ pre, m.compare_func n.key k ≠ 0) ∧
      m.compare_func node.key k = 0 ∧
      out = (pre ++ post, nodeDestroyEvents m node) := by
  intro chain
  induction chain with
  | nil => intro out h; simp [chainDelete] at h
  | cons a rest ih =>
    intro out h
    by_cases ha : m.compare_func a.key k = 0
    · refine ⟨[], a, rest, by simp, by simp, ha, ?_⟩
      simp only [chainDelete, if_pos ha, Option.some_inj] at h
      exact h.symm
    · simp only [chainDelete, if_neg ha] at h
      rcases he : chainDelete m k rest with _ | ⟨rest2, events⟩
      · rw [he] at h; cases h
      · rw [he] at h
        obtain ⟨pre, node, post, hc, hpre, hmatch, hout⟩ := ih he
        refine ⟨a :: pre, node, post, by simp [hc], ?_, hmatch, ?_⟩
        · intro n hn
          rcases List.mem_cons.mp hn with rfl | hn
          · exact ha
          · exact hpre n hn
        · cases h
          rw [Prod.mk.injEq] at hout
          simp [hout.1, hout.2]

theorem chainFind_eq_zero {m : MapT} {k : Nat} {chain : List MapNode}
    (h : ∀ n ∈ chain, m.compare_func n.key k ≠ 0) :
    chainFind m k chain = 0 := by
  induction chain with
  | nil => rfl
  | cons node rest ih =>
    have hn : m.compare_func node.key k ≠ 0 := h node (by simp)
    simp only [chainFind, if_neg hn]
    exact ih (fun n hn2 => h n (by simp [hn2]))

/-! ## Rehash and resize -/

theorem bucket_index_lt (m : MapT) (hl : m.buckets.length = m.capacity)
    (hc : 0 < m.capacity) (k : Nat) :
    _map_get_bucket_index m k < m.buckets.length := by
  rw [hl]; exact Nat.mod_lt _ hc

theorem rehashNode_spec (m : MapT) (node : MapNode)
    (hl : m.buckets.length = m.capacity) (hc : 0 < m.capacity) :
    (rehashNode m node).buckets.length = m.buckets.length ∧
    (rehashNode m node).capacity = m.capacity ∧
    (rehashNode m node).size = m.size + 1 ∧
    SameFns m (rehashNode m node) ∧
    (rehashNode m node).buckets.flatten.Perm (node :: m.buckets.flatten) ∧
    (Placed m → Placed (rehashNode m node)) := by
  have hidx : _map_get_bucket_index m node.key < m.buckets.length :=
    bucket_index_lt m hl hc node.key
  obtain ⟨l1, l2, h1, h2, h3⟩ :=
    set_decomp ([] : List MapNode) m.buckets (_map_get_bucket_index m node.key)
      hidx (node :: m.buckets.getD (_map_get_bucket_index m node.key) [])
  have hbeq : (rehashNode m node).buckets =
      l1 ++ (node :: m.buckets.getD (_map_get_bucket_index m node.key) []) :: l2 := h2
  have hold : m.buckets.flatten =
      l1.flatten ++ (m.buckets.getD (_map_get_bucket_index m node.key) [] ++ l2.flatten) := by
    conv_lhs => rw [h1]
    rw [List.flatten_append, List.flatten_cons]
  refine ⟨by simp [rehashNode], rfl, rfl, ⟨rfl, rfl, rfl, rfl⟩, ?_, ?_⟩
  · have hnew : (rehashNode m node).buckets.flatten =
        l1.flatten ++ (node ::
          (m.buckets.getD (_map_get_bucket_index m node.key) [] ++ l2.flatten)) := by
      rw [hbeq, List.flatten_append, List.flatten_cons, List.cons_append]
    rw [hnew, hold]
    exact List.perm_middle
  · intro hp i hi n hn
    have hlen : (rehashNode m node).buckets.length = m.buckets.length := by
      simp [rehashNode]
    rw [hlen] at hi
    by_cases hie : i = _map_get_bucket_index m node.key
    · have hgd : (rehashNode m node).buckets.getD i [] =
          node :: m.buckets.getD (_map_get_bucket_index m node.key) [] := by
        show (m.buckets.set (_map_get_bucket_index m node.key)
          (node :: m.buckets.getD (_map_get_bucket_index m node.key) [])).getD i [] = _
        rw [hie]
        exact getD_set_self m.buckets hidx _ _
      rw [hgd] at hn
      rcases List.mem_cons.mp hn with rfl | hn2
      · rw [hie]; rfl
      · rw [hie]
        exact hp (_map_get_bucket_index m node.key) hidx n hn2
    · have hgd : (rehashNode m node).buckets.getD i [] = m.buckets.getD i [] := by
        show (m.buckets.set (_map_get_bucket_index m node.key)
          (node :: m.buckets.getD (_map_get_bucket_index m node.key) [])).getD i [] = _
        exact getD_set_ne m.buckets (fun h => hie h.symm) _ _
      rw [hgd] at hn
      exact hp i hi n hn

theorem rehashChain_spec (chain : List MapNode) :
    ∀ (m : MapT), m.buckets.length = m.capacity → 0 < m.capacity →
    (rehashChain m chain).buckets.length = m.buckets.length ∧
    (rehashChain m chain).capacity = m.capacity ∧
    (rehashChain m chain).size = m.size + chain.length ∧
    SameFns m (rehashChain m chain) ∧
    (rehashChain m chain).buckets.flatten.Perm (chain ++ m.buckets.flatten) ∧
    (Placed m → Placed (rehashChain m chain)) := by
  induction chain with
  | nil =>
    intro m _ _
    exact ⟨rfl, rfl, rfl, ⟨rfl, rfl, rfl, rfl⟩, by simp [rehashChain], fun h => h⟩
  | cons node rest ih =>
    intro m hl hc
    obtain ⟨nl, ncap, nsz, ⟨nh, ncf, nkf, nvf⟩, nperm, npl⟩ := rehashNode_spec m node hl hc
    have hl2 : (rehashNode m node).buckets.length = (rehashNode m node).capacity := by
      rw [nl, ncap, hl]
    have hc2 : 0 < (rehashNode m node).capacity := by rw [ncap]; exact hc
    obtain ⟨rl, rcap, rsz, ⟨rh, rcf, rkf, rvf⟩, rperm, rpl⟩ := ih (rehashNode m node) hl2 hc2
    have hstep : rehashChain m (node :: rest) = rehashChain (rehashNode m node) rest := rfl
    rw [hstep]
    refine ⟨by rw [rl, nl], by rw [rcap, ncap],
      by rw [rsz, nsz, List.length_cons]; omega,
      ⟨by rw [rh, nh], by rw [rcf, ncf], by rw [rkf, nkf], by rw [rvf, nvf]⟩, ?_,
      fun hp => rpl (npl hp)⟩
    have p2 : (rest ++ (rehashNode m node).buckets.flatten).Perm
        (rest ++ (node :: m.buckets.flatten)) := List.Perm.append_left rest nperm
    have p3 : (rest ++ (node :: m.buckets.flatten)).Perm
        (node :: (rest ++ m.buckets.flatten)) := List.perm_middle
    exact (rperm.trans p2).trans p3

theorem rehashAll_spec (bs : List (List MapNode)) :
    ∀ (m : MapT), m.buckets.length = m.capacity → 0 < m.capacity →
    (rehashAll m bs).buckets.length = m.buckets.length ∧
    (rehashAll m bs).capacity = m.capacity ∧
    (rehashAll m bs).size = m.size + bs.flatten.length ∧
    SameFns m (rehashAll m bs) ∧
    (rehashAll m bs).buckets.flatten.Perm (bs.flatten ++ m.buckets.flatten) ∧
    (Placed m → Placed (rehashAll m bs)) := by
  induction bs with
  | nil =>
    intro m _ _
    exact ⟨rfl, rfl, rfl, ⟨rfl, rfl, rfl, rfl⟩, by simp [rehashAll], fun h => h⟩
  | cons chain more ih =>
    intro m hl hc
    obtain ⟨nl, ncap, nsz, ⟨nh, ncf, nkf, nvf⟩, nperm, npl⟩ := rehashChain_spec chain m hl hc
    have hl2 : (rehashChain m chain).buckets.length = (rehashChain m chain).capacity := by
      rw [nl, ncap, hl]
    have hc2 : 0 < (rehashChain m chain).capacity := by rw [ncap]; exact hc
    obtain ⟨rl, rcap, rsz, ⟨rh, rcf, rkf, rvf⟩, rperm, rpl⟩ := ih (rehashChain m chain) hl2 hc2
    have hstep : rehashAll m (chain :: more) = rehashAll (rehashChain m chain) more := rfl
    rw [hstep]
    refine ⟨by rw [rl, nl], by rw [rcap, ncap],
      by rw [rsz, nsz, List.flatten_cons, List.length_append]; omega,
      ⟨by rw [rh, nh], by rw [rcf, ncf], by rw [rkf, nkf], by rw [rvf, nvf]⟩, ?_,
      fun hp => rpl (npl hp)⟩
    have p2 : (more.flatten ++ (rehashChain m chain).buckets.flatten).Perm
        (more.flatten ++ (chain ++ m.buckets.flatten)) :=
      List.Perm.append_left more.flatten nperm
    refine (rperm.trans p2).trans ?_
    rw [List.flatten_cons, List.append_assoc]
    have q1 : more.flatten ++ (chain ++ m.buckets.flatten) =
        (more.flatten ++ chain) ++ m.buckets.flatten := (List.append_assoc _ _ _).symm
    have q2 : ((more.flatten ++ chain) ++ m.buckets.flatten).Perm
        ((chain ++ more.flatten) ++ m.buckets.flatten) :=
      List.Perm.append_right _ List.perm_append_comm
    have q3 : (chain ++ more.flatten) ++ m.buckets.flatten =
        chain ++ (more.flatten ++ m.buckets.flatten) := List.append_assoc _ _ _
    rw [q1, ← q3]
    exact q2

theorem sameFns_trans {a b c : MapT} (h1 : SameFns a b) (h2 : SameFns b c) :
    SameFns a c := by
  obtain ⟨x1, x2, x3, x4⟩ := h1
  obtain ⟨y1, y2, y3, y4⟩ := h2
  exact ⟨y1.trans x1, y2.trans x2, y3.trans x3, y4.trans x4⟩

theorem goodMapFns_of_sameFns {m m2 : MapT} (h : SameFns m m2)
    (hG : GoodMapFns m) : GoodMapFns m2 := by
  unfold GoodMapFns
  rw [h.1, h.2.1]
  exact hG

theorem ne_rel_symm {m : MapT} (hG : GoodMapFns m) {a b : MapNode}
    (h : m.compare_func a.key b.key ≠ 0) : m.compare_func b.key a.key ≠ 0 :=
  fun he => h (hG.2.1 _ _ he)

theorem distinct_of_perm {m m2 : MapT} (h : SameFns m m2) (hG : GoodMapFns m)
    (hperm : m2.nodes.Perm m.nodes) (hD : DistinctKeys m) : DistinctKeys m2 := by
  unfold DistinctKeys
  rw [h.2.1]
  exact (hperm.pairwise_iff (fun hxy => ne_rel_symm hG hxy)).mpr hD

theorem resize_success_spec (m : MapT) (hB : BasicInv m)
    (hned : ¬ m.capacity * RESIZE_FACTOR < m.size) :
    (_map_resize true m (m.capacity * RESIZE_FACTOR)).2 = MapResult.Success ∧
    SameFns m (_map_resize true m (m.capacity * RESIZE_FACTOR)).1 ∧
    (_map_resize true m (m.capacity * RESIZE_FACTOR)).1.capacity =
      m.capacity * RESIZE_FACTOR ∧
    (_map_resize true m (m.capacity * RESIZE_FACTOR)).1.buckets.length =
      m.capacity * RESIZE_FACTOR ∧
    (_map_resize true m (m.capacity * RESIZE_FACTOR)).1.size = m.size ∧
    (_map_resize true m (m.capacity * RESIZE_FACTOR)).1.nodes.Perm m.nodes ∧
    Placed (_map_resize true m (m.capacity * RESIZE_FACTOR)).1 ∧
    (GoodMapFns m → DistinctKeys m →
      DistinctKeys (_map_resize true m (m.capacity * RESIZE_FACTOR)).1) := by
  obtain ⟨hlen, hcap, hsz⟩ := hB
  set nc := m.capacity * RESIZE_FACTOR with hnc
  have hncpos : 0 < nc := by
    have : (0 : Nat) < RESIZE_FACTOR := by decide
    exact Nat.mul_pos hcap this
  set emptied : MapT := { m with capacity := nc,
                                 buckets := List.replicate nc [],
                                 size := 0 } with hemp
  have hel : emptied.buckets.length = emptied.capacity := by
    simp [hemp]
  have hec : 0 < emptied.capacity := hncpos
  obtain ⟨rl, rcap, rsz, rfns, rperm, rpl⟩ :=
    rehashAll_spec m.buckets emptied hel hec
  have hres : _map_resize true m nc = (rehashAll emptied m.buckets, MapResult.Success) := by
    unfold _map_resize
    rw [if_neg hned]
    rfl
  have hempfns : SameFns m emptied := ⟨rfl, rfl, rfl, rfl⟩
  have hfns : SameFns m (rehashAll emptied m.buckets) := sameFns_trans hempfns rfns
  have hempflat : emptied.buckets.flatten = [] := by
    simp [hemp, flatten_replicate_nil]
  have hperm : (rehashAll emptied m.buckets).nodes.Perm m.nodes := by
    unfold MapT.nodes
    have := rperm
    rw [hempflat, List.append_nil] at this
    exact this
  have hplaced : Placed (rehashAll emptied m.buckets) := by
    refine rpl ?_
    intro i hi n hn
    rw [show emptied.buckets.getD i [] = [] from getD_replicate_nil _ _] at hn
    cases hn
  refine ⟨by rw [hres], by rw [hres]; exact hfns, by rw [hres]; simpa [hemp] using rcap,
    by rw [hres]; rw [rl]; simp [hemp], ?_, by rw [hres]; exact hperm,
    by rw [hres]; exact hplaced, ?_⟩
  · rw [hres]
    show (rehashAll emptied m.buckets).size = m.size
    rw [rsz]
    have : emptied.size = 0 := rfl
    rw [this, Nat.zero_add]
    exact (hsz.symm : m.nodes.length = m.size) ▸ rfl
  · intro hG hD
    rw [hres]
    exact distinct_of_perm hfns hG hperm hD

theorem insertMaybeResize_spec (m : MapT) (hB : BasicInv m) (hL : LoadInv m) :
    (insertMaybeResize true m).2 = MapResult.Success ∧
    SameFns m (insertMaybeResize true m).1 ∧
    BasicInv (insertMaybeResize true m).1 ∧
    (insertMaybeResize true m).1.size = m.size ∧
    ((insertMaybeResize true m).1.capacity = m.capacity ∨
      (insertMaybeResize true m).1.capacity = m.capacity * RESIZE_FACTOR) ∧
    m.capacity ≤ (insertMaybeResize true m).1.capacity ∧
    (m.size + 1) * 4 ≤ 3 * (insertMaybeResize true m).1.capacity ∧
    (insertMaybeResize true m).1.nodes.Perm m.nodes ∧
    (Placed m → Placed (insertMaybeResize true m).1) ∧
    (GoodMapFns m → DistinctKeys m → DistinctKeys (insertMaybeResize true m).1) := by
  obtain ⟨hlen, hcap, hsz⟩ := hB
  by_cases hneed : (m.size + 1) * 4 > m.capacity * 3
  · have hned : ¬ m.capacity * RESIZE_FACTOR < m.size := by
      unfold LoadInv at hL
      unfold RESIZE_FACTOR
      omega
    obtain ⟨r2, rfns, rcap, rlen, rsz, rperm, rpl, rdk⟩ :=
      resize_success_spec m ⟨hlen, hcap, hsz⟩ hned
    have heq : insertMaybeResize true m = _map_resize true m (m.capacity * RESIZE_FACTOR) := by
      unfold insertMaybeResize
      rw [if_pos hneed]
    rw [heq]
    refine ⟨r2, rfns, ⟨by rw [rlen, rcap], ?_, ?_⟩, rsz, Or.inr rcap, ?_, ?_, rperm,
      fun _ => rpl, rdk⟩
    · rw [rcap]
      unfold RESIZE_FACTOR
      omega
    · rw [rsz, hsz]
      exact rperm.length_eq.symm
    · rw [rcap]; unfold RESIZE_FACTOR; omega
    · rw [rcap]; unfold LoadInv at hL; unfold RESIZE_FACTOR; omega
  · have heq : insertMaybeResize true m = (m, MapResult.Success) := by
      unfold insertMaybeResize
      rw [if_neg hneed]
    rw [heq]
    exact ⟨rfl, ⟨rfl, rfl, rfl, rfl⟩, ⟨hlen, hcap, hsz⟩, rfl, Or.inl rfl, Nat.le_refl _,
      by show (m.size + 1) * 4 ≤ 3 * m.capacity; omega, List.Perm.refl _,
      fun h => h, fun _ hD => hD⟩

/-! ## Pairwise surgery and membership helpers -/

theorem pairwise_ne_replace {m : MapT} (hG : GoodMapFns m) {A B : List MapNode}
    {node : MapNode} (k v : Nat) (hmatch : m.compare_func node.key k = 0)
    (hpw : (A ++ node :: B).Pairwise (fun a b => m.compare_func a.key b.key ≠ 0)) :
    (A ++ (⟨k, v⟩ : MapNode) :: B).Pairwise
      (fun a b => m.compare_func a.key b.key ≠ 0) := by
  rw [List.pairwise_append] at hpw ⊢
  obtain ⟨hA, hNB, hcross⟩ := hpw
  rw [List.pairwise_cons] at hNB
  obtain ⟨hnodeB, hB⟩ := hNB
  refine ⟨hA, ?_, ?_⟩
  · rw [List.pairwise_cons]
    refine ⟨?_, hB⟩
    intro b hb h0
    exact hnodeB b hb (hG.2.2.1 _ _ _ hmatch h0)
  · intro a ha b hb
    rcases List.mem_cons.mp hb with rfl | hb2
    · intro h0
      exact hcross a ha node (List.mem_cons_self _ _)
        (hG.2.2.1 _ _ _ h0 (hG.2.1 _ _ hmatch))
    · exact hcross a ha b (List.mem_cons_of_mem _ hb2)

theorem pairwise_ne_insert {m : MapT} (hG : GoodMapFns m) {A B : List MapNode}
    (k v : Nat) (hno : ∀ n ∈ A ++ B, m.compare_func n.key k ≠ 0)
    (hpw : (A ++ B).Pairwise (fun a b => m.compare_func a.key b.key ≠ 0)) :
    (A ++ (⟨k, v⟩ : MapNode) :: B).Pairwise
      (fun a b => m.compare_func a.key b.key ≠ 0) := by
  rw [List.pairwise_append] at hpw ⊢
  obtain ⟨hA, hB, hcross⟩ := hpw
  refine ⟨hA, ?_, ?_⟩
  · rw [List.pairwise_cons]
    refine ⟨?_, hB⟩
    intro b hb h0
    exact hno b (List.mem_append_right A hb) (hG.2.1 _ _ h0)
  · intro a ha b hb
    rcases List.mem_cons.mp hb with rfl | hb2
    · exact fun h0 => hno a (List.mem_append_left B ha) h0
    · exact hcross a ha b hb2

theorem mem_flatten_getD {α : Type} {x : α} :
    ∀ {l : List (List α)}, x ∈ l.flatten →
    ∃ j, j < l.length ∧ x ∈ l.getD j [] := by
  intro l
  induction l with
  | nil => intro h; cases h
  | cons c cs ih =>
    intro h
    rw [List.flatten_cons] at h
    rcases List.mem_append.mp h with h1 | h2
    · exact ⟨0, by simp, by simpa using h1⟩
    · obtain ⟨j, hj, hmem⟩ := ih h2
      exact ⟨j + 1, by simpa using hj, by simpa [List.getD_cons_succ] using hmem⟩

/-! ## The two paths of the insert body -/

theorem insertBody_update_eq (nodeAllocOk : Bool) (m1 : MapT) (k v : Nat)
    {pre : List MapNode} {node : MapNode} {post : List MapNode}
    (hchain : m1.buckets.getD (_map_get_bucket_index m1 k) [] = pre ++ node :: post)
    (hpre : ∀ n ∈ pre, m1.compare_func n.key k ≠ 0)
    (hmatch : m1.compare_func node.key k = 0) :
    insertBody nodeAllocOk m1 k v =
      (some { m1 with buckets := m1.buckets.set (_map_get_bucket_index m1 k) (pre ++ (⟨k, v⟩ : MapNode) :: post) },
       MapResult.Success,
       (if m1.has_value_free ∧ node.value ≠ 0 then [FreeEvent.freeValue node.value] else []) ++
       (if m1.has_key_free ∧ node.key ≠ k then [FreeEvent.freeKey node.key] else [])) := by
  simp only [insertBody]
  rw [hchain, updateChain_spec pre node post hpre hmatch]

theorem insertBody_fresh_eq (m1 : MapT) (k v : Nat)
    (hnone : ∀ n ∈ m1.buckets.getD (_map_get_bucket_index m1 k) [],
      m1.compare_func n.key k ≠ 0) :
    insertBody true m1 k v =
      (some { m1 with buckets := m1.buckets.set (_map_get_bucket_index m1 k) ((⟨k, v⟩ : MapNode) :: m1.buckets.getD (_map_get_bucket_index m1 k) []), size := m1.size + 1 },
       MapResult.Success, []) := by
  simp only [insertBody]
  rw [updateChain_eq_none.mpr hnone]
  rfl

theorem insertBody_spec (m1 : MapT) (k v : Nat) (hB : BasicInv m1)
    (hload : (m1.size + 1) * 4 ≤ 3 * m1.capacity) :
    ∃ m2 ev, insertBody true m1 k v = (some m2, MapResult.Success, ev) ∧
      SameFns m1 m2 ∧ m2.capacity = m1.capacity ∧ BasicInv m2 ∧ LoadInv m2 ∧
      m2.size ≤ m1.size + 1 ∧
      (Placed m1 → Placed m2) ∧
      MapNode.mk k v ∈ m2.nodes ∧
      (∀ n ∈ m1.nodes, m1.compare_func n.key k ≠ 0 → n ∈ m2.nodes) ∧
      (GoodMapFns m1 → Placed m1 → DistinctKeys m1 → DistinctKeys m2) := by
  obtain ⟨hlen, hcap, hsz⟩ := hB
  have hidxlt : _map_get_bucket_index m1 k < m1.buckets.length :=
    bucket_index_lt m1 hlen hcap k
  rcases hup : updateChain m1 k v
      (m1.buckets.getD (_map_get_bucket_index m1 k) []) with _ | out
  · -- fresh-key path: push a new node at the chain head
    have hnone : ∀ n ∈ m1.buckets.getD (_map_get_bucket_index m1 k) [],
        m1.compare_func n.key k ≠ 0 := updateChain_eq_none.mp hup
    have heq := insertBody_fresh_eq m1 k v hnone
    obtain ⟨l1, l2, hdec1, hdec2, hdeclen⟩ :=
      set_decomp ([] : List MapNode) m1.buckets (_map_get_bucket_index m1 k) hidxlt
        ((⟨k, v⟩ : MapNode) :: m1.buckets.getD (_map_get_bucket_index m1 k) [])
    have hflat1 : m1.nodes =
        l1.flatten ++ (m1.buckets.getD (_map_get_bucket_index m1 k) [] ++ l2.flatten) := by
      show m1.buckets.flatten = _
      conv_lhs => rw [hdec1]
      rw [List.flatten_append, List.flatten_cons]
    refine ⟨_, _, heq, ⟨rfl, rfl, rfl, rfl⟩, rfl, ?_, ?_, by simp, ?_, ?_, ?_, ?_⟩
    · -- BasicInv
      refine ⟨by simp [List.length_set, hlen], hcap, ?_⟩
      show m1.size + 1 = (m1.buckets.set _ _).flatten.length
      rw [hdec2, List.flatten_append, List.flatten_cons]
      have h1 : m1.nodes.length =
          l1.flatten.length + (m1.buckets.getD (_map_get_bucket_index m1 k) []).length
            + l2.flatten.length := by
        rw [hflat1]; simp [List.length_append]; omega
      simp only [List.cons_append, List.length_append, List.length_cons]
      omega
    · -- LoadInv
      show 4 * (m1.size + 1) ≤ 3 * m1.capacity
      omega
    · -- Placed preserved
      intro hp i hi n hn
      have hlen2 : (m1.buckets.set (_map_get_bucket_index m1 k)
          ((⟨k, v⟩ : MapNode) :: m1.buckets.getD (_map_get_bucket_index m1 k) [])).length =
          m1.buckets.length := List.length_set _ _ _
      rw [show (({ m1 with buckets := m1.buckets.set (_map_get_bucket_index m1 k) ((⟨k, v⟩ : MapNode) :: m1.buckets.getD (_map_get_bucket_index m1 k) []), size := m1.size + 1 } : MapT)).buckets.length = m1.buckets.length from hlen2] at hi
      by_cases hie : i = _map_get_bucket_index m1 k
      · have hgd : (m1.buckets.set (_map_get_bucket_index m1 k)
            ((⟨k, v⟩ : MapNode) :: m1.buckets.getD (_map_get_bucket_index m1 k) [])).getD i [] =
            (⟨k, v⟩ : MapNode) :: m1.buckets.getD (_map_get_bucket_index m1 k) [] := by
          rw [hie]; exact getD_set_self m1.buckets hidxlt _ _
        rw [show (({ m1 with buckets := m1.buckets.set (_map_get_bucket_index m1 k) ((⟨k, v⟩ : MapNode) :: m1.buckets.getD (_map_get_bucket_index m1 k) []), size := m1.size + 1 } : MapT)).buckets.getD i [] = (⟨k, v⟩ : MapNode) :: m1.buckets.getD (_map_get_bucket_index m1 k) [] from hgd] at hn
        rcases List.mem_cons.mp hn with rfl | hn2
        · rw [hie]; rfl
        · rw [hie]
          exact hp (_map_get_bucket_index m1 k) hidxlt n hn2
      · have hgd : (m1.buckets.set (_map_get_bucket_index m1 k)
            ((⟨k, v⟩ : MapNode) :: m1.buckets.getD (_map_get_bucket_index m1 k) [])).getD i [] =
            m1.buckets.getD i [] :=
          getD_set_ne m1.buckets (fun h => hie h.symm) _ _
        rw [show (({ m1 with buckets := m1.buckets.set (_map_get_bucket_index m1 k) ((⟨k, v⟩ : MapNode) :: m1.buckets.getD (_map_get_bucket_index m1 k) []), size := m1.size + 1 } : MapT)).buckets.getD i [] = m1.buckets.getD i [] from hgd] at hn
        exact hp i hi n hn
    · -- the new node is live
      show (⟨k, v⟩ : MapNode) ∈ (m1.buckets.set _ _).flatten
      rw [hdec2, List.flatten_append, List.flatten_cons]
      exact List.mem_append_right _ (List.mem_append_left _ (List.mem_cons_self _ _))
    · -- every non-matching old node survives
      intro n hmem _
      rw [hflat1] at hmem
      show n ∈ (m1.buckets.set _ _).flatten
      rw [hdec2, List.flatten_append, List.flatten_cons, List.cons_append]
      rcases List.mem_append.mp hmem with h1 | h2
      · exact List.mem_append_left _ h1
      · exact List.mem_append_right _ (List.mem_cons_of_mem _ h2)
    · -- distinctness preserved
      intro hG hp hD
      have hno : ∀ n ∈ l1.flatten ++
          (m1.buckets.getD (_map_get_bucket_index m1 k) [] ++ l2.flatten),
          m1.compare_func n.key k ≠ 0 := by
        intro n hmem hc0
        have hmem2 : n ∈ m1.nodes := by rw [hflat1]; exact hmem
        obtain ⟨j, hj, hjmem⟩ := mem_flatten_getD hmem2
        have hhash : m1.hash_func n.key = m1.hash_func k := hG.2.2.2 _ _ hc0
        have hplaced := hp j hj n hjmem
        have : j = _map_get_bucket_index m1 k := by
          rw [← hplaced]
          show m1.hash_func n.key % m1.capacity = m1.hash_func k % m1.capacity
          rw [hhash]
        rw [this] at hjmem
        exact hnone n hjmem hc0
      have hpw : (l1.flatten ++
          (m1.buckets.getD (_map_get_bucket_index m1 k) [] ++ l2.flatten)).Pairwise
          (fun a b => m1.compare_func a.key b.key ≠ 0) := by
        rw [← hflat1]; exact hD
      have := pairwise_ne_insert hG k v hno hpw
      show ((m1.buckets.set _ _).flatten).Pairwise
        (fun a b => m1.compare_func a.key b.key ≠ 0)
      rw [hdec2, List.flatten_append, List.flatten_cons, List.cons_append]
      exact this
  · -- existing-key path: update in place
    obtain ⟨pre, node, post, hc, hpre, hmatch, hout⟩ := updateChain_eq_some hup
    have heq := insertBody_update_eq true m1 k v hc hpre hmatch
    obtain ⟨l1, l2, hdec1, hdec2, hdeclen⟩ :=
      set_decomp ([] : List MapNode) m1.buckets (_map_get_bucket_index m1 k) hidxlt
        (pre ++ (⟨k, v⟩ : MapNode) :: post)
    have hshape1 : m1.nodes = (l1.flatten ++ pre) ++ node :: (post ++ l2.flatten) := by
      show m1.buckets.flatten = _
      conv_lhs => rw [hdec1]
      rw [hc, List.flatten_append, List.flatten_cons]
      simp only [List.append_assoc, List.cons_append]
    have hshape2 : (m1.buckets.set (_map_get_bucket_index m1 k)
        (pre ++ (⟨k, v⟩ : MapNode) :: post)).flatten =
        (l1.flatten ++ pre) ++ (⟨k, v⟩ : MapNode) :: (post ++ l2.flatten) := by
      rw [hdec2, List.flatten_append, List.flatten_cons]
      simp only [List.append_assoc, List.cons_append]
    refine ⟨_, _, heq, ⟨rfl, rfl, rfl, rfl⟩, rfl, ?_, ?_, by simp, ?_, ?_, ?_, ?_⟩
    · -- BasicInv
      refine ⟨by simp [List.length_set, hlen], hcap, ?_⟩
      show m1.size = (m1.buckets.set _ _).flatten.length
      rw [hshape2]
      have h1 : m1.nodes.length = (l1.flatten ++ pre).length + (node :: (post ++ l2.flatten)).length := by
        rw [hshape1, List.length_append]
      simp only [List.length_append, List.length_cons] at h1 ⊢
      omega
    · -- LoadInv
      show 4 * m1.size ≤ 3 * m1.capacity
      omega
    · -- Placed preserved
      intro hp i hi n hn
      have hlen2 : (m1.buckets.set (_map_get_bucket_index m1 k)
          (pre ++ (⟨k, v⟩ : MapNode) :: post)).length = m1.buckets.length :=
        List.length_set _ _ _
      rw [show (({ m1 with buckets := m1.buckets.set (_map_get_bucket_index m1 k) (pre ++ (⟨k, v⟩ : MapNode) :: post) } : MapT)).buckets.length = m1.buckets.length from hlen2] at hi
      by_cases hie : i = _map_get_bucket_index m1 k
      · have hgd : (m1.buckets.set (_map_get_bucket_index m1 k)
            (pre ++ (⟨k, v⟩ : MapNode) :: post)).getD i [] =
            pre ++ (⟨k, v⟩ : MapNode) :: post := by
          rw [hie]; exact getD_set_self m1.buckets hidxlt _ _
        rw [show (({ m1 with buckets := m1.buckets.set (_map_get_bucket_index m1 k) (pre ++ (⟨k, v⟩ : MapNode) :: post) } : MapT)).buckets.getD i [] = pre ++ (⟨k, v⟩ : MapNode) :: post from hgd] at hn
        have hold : ∀ x ∈ m1.buckets.getD (_map_get_bucket_index m1 k) [],
            m1.hash_func x.key % m1.capacity = _map_get_bucket_index m1 k :=
          fun x hx => hp _ hidxlt x hx
        rcases List.mem_append.mp hn with h1 | h2
        · rw [hie]
          have hmem0 : n ∈ m1.buckets.getD (_map_get_bucket_index m1 k) [] := by
            rw [hc]; exact List.mem_append_left _ h1
          exact hold n hmem0
        · rcases List.mem_cons.mp h2 with rfl | h3
          · rw [hie]; rfl
          · rw [hie]
            have hmem0 : n ∈ m1.buckets.getD (_map_get_bucket_index m1 k) [] := by
              rw [hc]; exact List.mem_append_right _ (List.mem_cons_of_mem _ h3)
            exact hold n hmem0
      · have hgd : (m1.buckets.set (_map_get_bucket_index m1 k)
            (pre ++ (⟨k, v⟩ : MapNode) :: post)).getD i [] = m1.buckets.getD i [] :=
          getD_set_ne m1.buckets (fun h => hie h.symm) _ _
        rw [show (({ m1 with buckets := m1.buckets.set (_map_get_bucket_index m1 k) (pre ++ (⟨k, v⟩ : MapNode) :: post) } : MapT)).buckets.getD i [] = m1.buckets.getD i [] from hgd] at hn
        exact hp i hi n hn
    · -- the updated node is live
      show (⟨k, v⟩ : MapNode) ∈ (m1.buckets.set _ _).flatten
      rw [hshape2]
      exact List.mem_append_right _ (List.mem_cons_self _ _)
    · -- every non-matching old node survives
      intro n hmem hnk
      rw [hshape1] at hmem
      show n ∈ (m1.buckets.set _ _).flatten
      rw [hshape2]
      rcases List.mem_append.mp hmem with h1 | h2
      · exact List.mem_append_left _ h1
      · rcases List.mem_cons.mp h2 with rfl | h3
        · exact absurd hmatch hnk
        · exact List.mem_append_right _ (List.mem_cons_of_mem _ h3)
    · -- distinctness preserved
      intro hG _ hD
      have hpw : ((l1.flatten ++ pre) ++ node :: (post ++ l2.flatten)).Pairwise
          (fun a b => m1.compare_func a.key b.key ≠ 0) := by
        rw [← hshape1]; exact hD
      have := pairwise_ne_replace hG k v hmatch hpw
      show ((m1.buckets.set _ _).flatten).Pairwise
        (fun a b => m1.compare_func a.key b.key ≠ 0)
      rw [hshape2]
      exact this

/-! ## The assembled mutating operations -/

theorem map_insert_success (m : MapT) (k v : Nat) (hk : ¬ k = 0)
    (hB : BasicInv m) (hL : LoadInv m) :
    ∃ m2 ev, map_insert true true (some m) k v = (some m2, MapResult.Success, ev) ∧
      SameFns m m2 ∧ BasicInv m2 ∧ LoadInv m2 ∧
      (m2.capacity = m.capacity ∨ m2.capacity = m.capacity * RESIZE_FACTOR) ∧
      m.capacity ≤ m2.capacity ∧ m2.size ≤ m.size + 1 ∧
      (Placed m → GoodMapFns m → DistinctKeys m →
        (Placed m2 ∧ DistinctKeys m2 ∧ MapNode.mk k v ∈ m2.nodes ∧
         (∀ n ∈ m.nodes, m.compare_func n.key k ≠ 0 → n ∈ m2.nodes))) := by
  obtain ⟨r2, rfns, rB, rsz, rcap, rle, rload, rperm, rpl, rdk⟩ :=
    insertMaybeResize_spec m hB hL
  have hbload : ((insertMaybeResize true m).1.size + 1) * 4 ≤
      3 * (insertMaybeResize true m).1.capacity := by
    rw [rsz]; exact rload
  obtain ⟨m2, ev, beq, bfns, bcap, bB, bL, bsz, bpl, bmem, bsurv, bdk⟩ :=
    insertBody_spec (insertMaybeResize true m).1 k v rB hbload
  have hunf : map_insert true true (some m) k v =
      insertBody true (insertMaybeResize true m).1 k v := by
    simp only [map_insert]
    rw [if_neg hk, r2]
    simp
  refine ⟨m2, ev, by rw [hunf]; exact beq, sameFns_trans rfns bfns, bB, bL,
    ?_, ?_, ?_, ?_⟩
  · rw [bcap]; exact rcap
  · rw [bcap]; exact rle
  · calc m2.size ≤ (insertMaybeResize true m).1.size + 1 := bsz
      _ = m.size + 1 := by rw [rsz]
  · intro hp hG hD
    have hp1 := rpl hp
    have hG1 := goodMapFns_of_sameFns rfns hG
    have hD1 := rdk hG hD
    refine ⟨bpl hp1, bdk hG1 hp1 hD1, bmem, ?_⟩
    intro n hn hnk
    have hn1 : n ∈ (insertMaybeResize true m).1.nodes := rperm.mem_iff.mpr hn
    have hnk1 : (insertMaybeResize true m).1.compare_func n.key k ≠ 0 := by
      rw [rfns.2.1]; exact hnk
    exact bsurv n hn1 hnk1

theorem insertStep_of_eq {m m2 : MapT} {k v : Nat} {ev : List FreeEvent}
    (h : map_insert true true (some m) k v = (some m2, MapResult.Success, ev)) :
    insertStep m k v = m2 := by
  simp [insertStep, h]

theorem insertStep_zero (m : MapT) (v : Nat) : insertStep m 0 v = m := by
  simp [insertStep, map_insert]

theorem insertStep_full (m : MapT) (k v : Nat) (hk : k ≠ 0)
    (hG : GoodMapFns m) (hI : MapInv m) :
    SameFns m (insertStep m k v) ∧ MapInv (insertStep m k v) ∧
    MapNode.mk k v ∈ (insertStep m k v).nodes ∧
    (∀ n ∈ m.nodes, m.compare_func n.key k ≠ 0 → n ∈ (insertStep m k v).nodes) := by
  obtain ⟨hB, hL, hP, hD⟩ := hI
  obtain ⟨m2, ev, heq, hfns, hB2, hL2, _, _, _, hrest⟩ := map_insert_success m k v hk hB hL
  obtain ⟨hP2, hD2, hmem, hsurv⟩ := hrest hP hG hD
  rw [insertStep_of_eq heq]
  exact ⟨hfns, ⟨hB2, hL2, hP2, hD2⟩, hmem, hsurv⟩

theorem insertStep_basic (m : MapT) (k v : Nat) (hB : BasicInv m) (hL : LoadInv m) :
    BasicInv (insertStep m k v) ∧ LoadInv (insertStep m k v) ∧
    ((insertStep m k v).capacity = m.capacity ∨
      (insertStep m k v).capacity = m.capacity * RESIZE_FACTOR) ∧
    m.capacity ≤ (insertStep m k v).capacity := by
  by_cases hk : k = 0
  · subst hk
    rw [insertStep_zero]
    exact ⟨hB, hL, Or.inl rfl, Nat.le_refl _⟩
  · obtain ⟨m2, ev, heq, _, hB2, hL2, hcap, hle, _, _⟩ := map_insert_success m k v hk hB hL
    rw [insertStep_of_eq heq]
    exact ⟨hB2, hL2, hcap, hle⟩

theorem deleteStep_zero (m : MapT) : deleteStep m 0 = m := by
  simp [deleteStep, map_delete]

theorem map_delete_found_eq (m : MapT) {k : Nat} (hk : ¬ k = 0)
    {pre : List MapNode} {node : MapNode} {post : List MapNode}
    (hc : m.buckets.getD (_map_get_bucket_index m k) [] = pre ++ node :: post)
    (hpre : ∀ n ∈ pre, m.compare_func n.key k ≠ 0)
    (hmatch : m.compare_func node.key k = 0) :
    map_delete (some m) k =
      (some { m with buckets := m.buckets.set (_map_get_bucket_index m k) (pre ++ post), size := m.size - 1 },
       MapResult.Success, nodeDestroyEvents m node) := by
  have hcd : chainDelete m k (m.buckets.getD (_map_get_bucket_index m k) []) =
      some (pre ++ post, nodeDestroyEvents m node) := by
    rw [hc]
    clear hc
    induction pre with
    | nil => simp [chainDelete, hmatch]
    | cons a as ih =>
      have ha : m.compare_func a.key k ≠ 0 := hpre a (by simp)
      have := ih (fun n hn => hpre n (by simp [hn]))
      simp only [List.cons_append, chainDelete, if_neg ha, List.append_eq, this]
  simp only [map_delete]
  rw [if_neg hk, hcd]

theorem deleteStep_full (m : MapT) (k : Nat) (_hG : GoodMapFns m) (hI : MapInv m) :
    SameFns m (deleteStep m k) ∧ MapInv (deleteStep m k) ∧
    (∀ n ∈ m.nodes, m.compare_func n.key k ≠ 0 → n ∈ (deleteStep m k).nodes) := by
  obtain ⟨⟨hlen, hcap, hsz⟩, hL, hP, hD⟩ := hI
  by_cases hk : k = 0
  · subst hk
    rw [deleteStep_zero]
    exact ⟨⟨rfl, rfl, rfl, rfl⟩, ⟨⟨hlen, hcap, hsz⟩, hL, hP, hD⟩, fun n hn _ => hn⟩
  · rcases hcd : chainDelete m k (m.buckets.getD (_map_get_bucket_index m k) [])
      with _ | out
    · have heq : map_delete (some m) k = (some m, MapResult.KeyNotFound, []) := by
        simp only [map_delete]
        rw [if_neg hk, hcd]
      have hds : deleteStep m k = m := by simp [deleteStep, heq]
      rw [hds]
      exact ⟨⟨rfl, rfl, rfl, rfl⟩, ⟨⟨hlen, hcap, hsz⟩, hL, hP, hD⟩, fun n hn _ => hn⟩
    · obtain ⟨pre, node, post, hc, hpre, hmatch, hout⟩ := chainDelete_eq_some hcd
      subst hout
      have heq := map_delete_found_eq m hk hc hpre hmatch
      have hds : deleteStep m k =
          { m with buckets := m.buckets.set (_map_get_bucket_index m k) (pre ++ post), size := m.size - 1 } := by
        simp [deleteStep, heq]
      have hidxlt : _map_get_bucket_index m k < m.buckets.length :=
        bucket_index_lt m hlen hcap k
      obtain ⟨l1, l2, hdec1, hdec2, hdeclen⟩ :=
        set_decomp ([] : List MapNode) m.buckets (_map_get_bucket_index m k) hidxlt
          (pre ++ post)
      have hshape1 : m.nodes = (l1.flatten ++ pre) ++ node :: (post ++ l2.flatten) := by
        show m.buckets.flatten = _
        conv_lhs => rw [hdec1]
        rw [hc, List.flatten_append, List.flatten_cons]
        simp only [List.append_assoc, List.cons_append]
      have hshape2 : (m.buckets.set (_map_get_bucket_index m k) (pre ++ post)).flatten =
          (l1.flatten ++ pre) ++ (post ++ l2.flatten) := by
        rw [hdec2, List.flatten_append, List.flatten_cons]
        simp only [List.append_assoc, List.cons_append]
      rw [hds]
      refine ⟨⟨rfl, rfl, rfl, rfl⟩, ⟨⟨by simp [List.length_set, hlen], hcap, ?_⟩, ?_, ?_, ?_⟩, ?_⟩
      · -- size bookkeeping
        show m.size - 1 = (m.buckets.set _ _).flatten.length
        rw [hshape2]
        have h1 : m.nodes.length =
            (l1.flatten ++ pre).length + (node :: (post ++ l2.flatten)).length := by
          rw [hshape1, List.length_append]
        simp only [List.length_append, List.length_cons] at h1 ⊢
        omega
      · -- LoadInv
        show 4 * (m.size - 1) ≤ 3 * m.capacity
        have : 4 * m.size ≤ 3 * m.capacity := hL
        omega
      · -- Placed
        intro i hi n hn
        have hlen2 : (m.buckets.set (_map_get_bucket_index m k) (pre ++ post)).length =
            m.buckets.length := List.length_set _ _ _
        rw [show (({ m with buckets := m.buckets.set (_map_get_bucket_index m k) (pre ++ post), size := m.size - 1 } : MapT)).buckets.length = m.buckets.length from hlen2] at hi
        by_cases hie : i = _map_get_bucket_index m k
        · have hgd : (m.buckets.set (_map_get_bucket_index m k) (pre ++ post)).getD i [] =
              pre ++ post := by
            rw [hie]; exact getD_set_self m.buckets hidxlt _ _
          rw [show (({ m with buckets := m.buckets.set (_map_get_bucket_index m k) (pre ++ post), size := m.size - 1 } : MapT)).buckets.getD i [] = pre ++ post from hgd] at hn
          have hold : ∀ x ∈ m.buckets.getD (_map_get_bucket_index m k) [],
              m.hash_func x.key % m.capacity = _map_get_bucket_index m k :=
            fun x hx => hP _ hidxlt x hx
          rcases List.mem_append.mp hn with h1 | h2
          · rw [hie]
            have hmem0 : n ∈ m.buckets.getD (_map_get_bucket_index m k) [] := by
              rw [hc]; exact List.mem_append_left _ h1
            exact hold n hmem0
          · rw [hie]
            have hmem0 : n ∈ m.buckets.getD (_map_get_bucket_index m k) [] := by
              rw [hc]; exact List.mem_append_right _ (List.mem_cons_of_mem _ h2)
            exact hold n hmem0
        · have hgd : (m.buckets.set (_map_get_bucket_index m k) (pre ++ post)).getD i [] =
              m.buckets.getD i [] := getD_set_ne m.buckets (fun h => hie h.symm) _ _
          rw [show (({ m with buckets := m.buckets.set (_map_get_bucket_index m k) (pre ++ post), size := m.size - 1 } : MapT)).buckets.getD i [] = m.buckets.getD i [] from hgd] at hn
          exact hP i hi n hn
      · -- DistinctKeys: removal is a sublist
        have hsub : ((l1.flatten ++ pre) ++ (post ++ l2.flatten)).Sublist
            ((l1.flatten ++ pre) ++ node :: (post ++ l2.flatten)) :=
          List.Sublist.append (List.Sublist.refl _) (List.sublist_cons_self _ _)
        have hpw : ((l1.flatten ++ pre) ++ node :: (post ++ l2.flatten)).Pairwise
            (fun a b => m.compare_func a.key b.key ≠ 0) := by
          rw [← hshape1]; exact hD
        show ((m.buckets.set _ _).flatten).Pairwise
          (fun a b => m.compare_func a.key b.key ≠ 0)
        rw [hshape2]
        exact List.Pairwise.sublist hsub hpw
      · -- survival of non-matching nodes
        intro n hn hnk
        rw [hshape1] at hn
        show n ∈ (m.buckets.set _ _).flatten
        rw [hshape2]
        rcases List.mem_append.mp hn with h1 | h2
        · exact List.mem_append_left _ h1
        · rcases List.mem_cons.mp h2 with rfl | h3
          · exact absurd hmatch hnk
          · exact List.mem_append_right _ h3

/-! ## Lookup -/

theorem chain_mem_nodes (m : MapT) (i : Nat) {n : MapNode}
    (hn : n ∈ m.buckets.getD i []) : n ∈ m.nodes := by
  rcases Nat.lt_or_ge i m.buckets.length with h | h
  · exact List.mem_flatten.mpr ⟨_, getD_mem_of_lt _ h _, hn⟩
  · rw [getD_of_ge _ h] at hn; cases hn

theorem chainFind_of_mem {m : MapT} (hG : GoodMapFns m) {k : Nat} {node : MapNode} :
    ∀ {chain : List MapNode},
    chain.Pairwise (fun a b => m.compare_func a.key b.key ≠ 0) →
    node ∈ chain → m.compare_func node.key k = 0 →
    chainFind m k chain = node.value := by
  intro chain
  induction chain with
  | nil => intro _ h; cases h
  | cons a rest ih =>
    intro hpw hmem hmatch
    rw [List.pairwise_cons] at hpw
    by_cases ha : m.compare_func a.key k = 0
    · simp only [chainFind, if_pos ha]
      rcases List.mem_cons.mp hmem with rfl | hmem2
      · rfl
      · exact absurd (hG.2.2.1 _ _ _ ha (hG.2.1 _ _ hmatch)) (hpw.1 node hmem2)
    · simp only [chainFind, if_neg ha]
      rcases List.mem_cons.mp hmem with rfl | hmem2
      · exact absurd hmatch ha
      · exact ih hpw.2 hmem2 hmatch

theorem map_get_of_mem (m : MapT) (hG : GoodMapFns m) (hB : BasicInv m)
    (hP : Placed m) (hD : DistinctKeys m) {k : Nat} (hk : ¬ k = 0)
    {node : MapNode} (hmem : node ∈ m.nodes)
    (hmatch : m.compare_func node.key k = 0) :
    map_get (some m) k = node.value := by
  obtain ⟨j, hj, hjmem⟩ := mem_flatten_getD hmem
  have hj2 : j = _map_get_bucket_index m k := by
    have hpl := hP j hj node hjmem
    rw [← hpl]
    show m.hash_func node.key % m.capacity = m.hash_func k % m.capacity
    rw [hG.2.2.2 _ _ hmatch]
  have hDf : (m.buckets.flatten).Pairwise
      (fun a b => m.compare_func a.key b.key ≠ 0) := hD
  have hmemb : m.buckets.getD (_map_get_bucket_index m k) [] ∈ m.buckets :=
    getD_mem_of_lt _ (bucket_index_lt m hB.1 hB.2.1 k) _
  have hpwchain : (m.buckets.getD (_map_get_bucket_index m k) []).Pairwise
      (fun a b => m.compare_func a.key b.key ≠ 0) :=
    (List.pairwise_flatten.mp hDf).1 _ hmemb
  rw [hj2] at hjmem
  simp only [map_get, if_neg hk]
  exact chainFind_of_mem hG hpwchain hjmem hmatch

theorem map_get_absent (m : MapT) {k : Nat} (hk : ¬ k = 0)
    (habs : ∀ n ∈ m.buckets.getD (_map_get_bucket_index m k) [],
      m.compare_func n.key k ≠ 0) :
    map_get (some m) k = 0 := by
  simp only [map_get, if_neg hk]
  exact chainFind_eq_zero habs

/-! ## Iteration -/

theorem iterChain_cont (chain : List MapNode) :
    ∀ c : Nat, iterChain contVisitor chain c =
      (c + chain.length, chain.map (fun nd => (nd.key, nd.value)), false) := by
  induction chain with
  | nil => intro c; simp [iterChain]
  | cons node rest ih =>
    intro c
    simp only [iterChain, contVisitor]
    rw [ih (c + 1), List.map_cons, List.length_cons,
      show c + 1 + rest.length = c + (rest.length + 1) from by omega]
    simp

theorem iterBuckets_cont (bs : List (List MapNode)) :
    ∀ c : Nat, iterBuckets contVisitor bs c =
      (c + bs.flatten.length, bs.flatten.map (fun nd => (nd.key, nd.value)), false) := by
  induction bs with
  | nil => intro c; simp [iterBuckets]
  | cons chain more ih =>
    intro c
    simp only [iterBuckets]
    rw [iterChain_cont chain c, ih (c + chain.length)]
    simp only [List.flatten_cons, List.map_append, List.length_append]
    rw [show c + chain.length + more.flatten.length =
      c + (chain.length + more.flatten.length) from by omega]
    simp

theorem iterChain_stopAt_low (k : Nat) (chain : List MapNode) :
    ∀ c : Nat, c + chain.length < k →
    iterChain (stopAtVisitor k) chain c =
      (c + chain.length, chain.map (fun nd => (nd.key, nd.value)), false) := by
  induction chain with
  | nil => intro c _; simp [iterChain]
  | cons node rest ih =>
    intro c hlt
    rw [List.length_cons] at hlt
    have hne : ¬ (c + 1 = k) := by omega
    simp only [iterChain, stopAtVisitor, if_neg hne]
    rw [ih (c + 1) (by omega), List.map_cons, List.length_cons,
      show c + 1 + rest.length = c + (rest.length + 1) from by omega]
    simp

theorem iterChain_stopAt_hit (k : Nat) (chain : List MapNode) :
    ∀ c : Nat, c < k → k ≤ c + chain.length →
    ∃ tr, iterChain (stopAtVisitor k) chain c = (k, tr, true) ∧ tr.length = k - c := by
  induction chain with
  | nil => intro c h1 h2; simp at h2; omega
  | cons node rest ih =>
    intro c hc hk
    by_cases hhit : c + 1 = k
    · refine ⟨[(node.key, node.value)], ?_, by simp; omega⟩
      simp only [iterChain, stopAtVisitor, if_pos hhit]
      simp [hhit]
    · rw [List.length_cons] at hk
      obtain ⟨tr, htr, hlen⟩ := ih (c + 1) (by omega) (by omega)
      refine ⟨(node.key, node.value) :: tr, ?_, by simp [hlen]; omega⟩
      simp only [iterChain, stopAtVisitor, if_neg hhit]
      rw [htr]
      simp

theorem iterBuckets_stopAt_hit (k : Nat) (bs : List (List MapNode)) :
    ∀ c : Nat, c < k → k ≤ c + bs.flatten.length →
    ∃ tr, iterBuckets (stopAtVisitor k) bs c = (k, tr, true) ∧ tr.length = k - c := by
  induction bs with
  | nil => intro c h1 h2; simp at h2; omega
  | cons chain more ih =>
    intro c hc hk
    rw [List.flatten_cons, List.length_append] at hk
    by_cases hin : k ≤ c + chain.length
    · obtain ⟨tr, htr, hlen⟩ := iterChain_stopAt_hit k chain c hc hin
      refine ⟨tr, ?_, hlen⟩
      simp only [iterBuckets]
      rw [htr]
      simp
    · push_neg at hin
      obtain ⟨tr, htr, hlen⟩ := ih (c + chain.length) (by omega) (by omega)
      refine ⟨chain.map (fun nd => (nd.key, nd.value)) ++ tr, ?_, ?_⟩
      · simp only [iterBuckets]
        rw [iterChain_stopAt_low k chain c hin, htr]
        simp
      · rw [List.length_append, List.length_map, hlen]
        omega

/-! ## Concrete-instance helper facts -/

theorem goodMapFns_fix (m : MapT) (hh : m.hash_func = natHash)
    (hc : m.compare_func = natCmp) : GoodMapFns m := by
  unfold GoodMapFns
  rw [hh, hc]
  unfold natCmp natHash
  exact ⟨fun a => by omega, fun a b h => by omega,
    fun a b c h1 h2 => by omega, fun a b h => by omega⟩

theorem mapInv_emptyMap16 : MapInv emptyMap16 := by
  unfold MapInv BasicInv LoadInv Placed DistinctKeys MapT.nodes emptyMap16
  decide

theorem mapInv_oneEntryMap : MapInv oneEntryMap := by
  unfold MapInv BasicInv LoadInv Placed DistinctKeys MapT.nodes oneEntryMap
  decide

theorem mapInv_nullValMap : MapInv nullValMap := by
  unfold MapInv BasicInv LoadInv Placed DistinctKeys MapT.nodes nullValMap
  decide

theorem mapInv_chainMap8 : MapInv chainMap8 := by
  unfold MapInv BasicInv LoadInv Placed DistinctKeys MapT.nodes chainMap8
  decide

/-! ## Claim theorems -/

/-- C4: when the insert-triggered resize fails to allocate the new bucket
array, `map_insert` returns `MAP_ALLOCATION_ERROR` and the map is returned
exactly as it was — same capacity, size and bucket contents, and no destructor
ran. -/
theorem resize_alloc_failure_atomic (m : MapT) (k v : Nat) (nodeAllocOk : Bool)
    (hk : ¬ k = 0) (hneed : (m.size + 1) * 4 > m.capacity * 3)
    (hfit : ¬ m.capacity * RESIZE_FACTOR < m.size) :
    map_insert false nodeAllocOk (some m) k v =
      (some m, MapResult.AllocationError, []) := by
  have hres : insertMaybeResize false m = (m, MapResult.AllocationError) := by
    unfold insertMaybeResize
    rw [if_pos hneed]
    unfold _map_resize
    rw [if_neg hfit]
    simp
  simp only [map_insert]
  rw [if_neg hk, hres]
  simp

theorem resize_alloc_failure_atomic_witness :
    (¬ (1 : Nat) = 0) ∧ (fullMap2.size + 1) * 4 > fullMap2.capacity * 3 ∧
    (¬ fullMap2.capacity * RESIZE_FACTOR < fullMap2.size) ∧
    map_insert false true (some fullMap2) 1 9 =
      (some fullMap2, MapResult.AllocationError, []) :=
  ⟨by decide, by decide, by decide,
    resize_alloc_failure_atomic fullMap2 1 9 true (by decide) (by decide) (by decide)⟩

/-- C7: deleting a key that matches no entry of the scanned chain returns the
distinguished `MAP_KEY_NOT_FOUND` outcome and returns the map unchanged with
no destructor run, while a NULL map or NULL key yields `MAP_FAILURE`, a result
code distinct from `MAP_KEY_NOT_FOUND`. -/
theorem delete_error_taxonomy (m : MapT) (k : Nat) (hk : ¬ k = 0)
    (habs : ∀ n ∈ m.buckets.getD (_map_get_bucket_index m k) [],
      m.compare_func n.key k ≠ 0) :
    map_delete (some m) k = (some m, MapResult.KeyNotFound, []) ∧
    (∀ (m2 : MapT) (k2 : Nat),
      map_delete none k2 = (none, MapResult.Failure, []) ∧
      map_delete (some m2) 0 = (some m2, MapResult.Failure, [])) ∧
    MapResult.Failure ≠ MapResult.KeyNotFound := by
  refine ⟨?_, fun m2 k2 => ⟨rfl, rfl⟩, by decide⟩
  simp only [map_delete]
  rw [if_neg hk, chainDelete_eq_none.mpr habs]

theorem delete_error_taxonomy_witness :
    (¬ (2 : Nat) = 0) ∧
    (∀ n ∈ oneEntryMap.buckets.getD (_map_get_bucket_index oneEntryMap 2) [],
      oneEntryMap.compare_func n.key 2 ≠ 0) ∧
    (map_delete (some oneEntryMap) 2 = (some oneEntryMap, MapResult.KeyNotFound, []) ∧
     (∀ (m2 : MapT) (k2 : Nat),
       map_delete none k2 = (none, MapResult.Failure, []) ∧
       map_delete (some m2) 0 = (some m2, MapResult.Failure, [])) ∧
     MapResult.Failure ≠ MapResult.KeyNotFound) :=
  ⟨by decide, by decide, delete_error_taxonomy oneEntryMap 2 (by decide) (by decide)⟩

/-- C9: `map_create` with `initial_capacity = 0` produces a map whose
capacity is the default `INITIAL_CAPACITY = 16` with that many empty buckets,
and a NULL hash function or NULL compare function makes `map_create` return
NULL instead of a map. -/
theorem create_defaults :
    (∀ (hf : Nat → Nat) (cf : Nat → Nat → Int) (kf vf : Bool),
      map_create true true 0 (some hf) (some cf) kf vf =
        some { buckets := List.replicate INITIAL_CAPACITY [],
               capacity := INITIAL_CAPACITY, size := 0,
               hash_func := hf, compare_func := cf,
               has_key_free := kf, has_value_free := vf } ∧
      INITIAL_CAPACITY = 16) ∧
    (∀ (cap0 : Nat) (cf : Option (Nat → Nat → Int)) (kf vf : Bool),
      map_create true true cap0 none cf kf vf = none) ∧
    (∀ (cap0 : Nat) (hf : Option (Nat → Nat)) (kf vf : Bool),
      map_create true true cap0 hf none kf vf = none) := by
  refine ⟨fun hf cf kf vf => ⟨rfl, rfl⟩, fun cap0 cf kf vf => ?_, fun cap0 hf kf vf => ?_⟩
  · cases cf <;> rfl
  · cases hf <;> rfl

/-- C10: an entry whose stored value pointer is NULL is indistinguishable
from an absent key through the read API: `map_get` returns NULL and
`map_contains` returns 0 for it, exactly as for a key with no entry at all,
even though the entry is live and counted by `size`. -/
theorem null_value_indistinguishable (m : MapT) (hG : GoodMapFns m)
    (hI : MapInv m) (k : Nat) (hk : ¬ k = 0) (node : MapNode)
    (hmem : node ∈ m.nodes) (hmatch : m.compare_func node.key k = 0)
    (hnull : node.value = 0) (kabs : Nat) (hkabs : ¬ kabs = 0)
    (habs : ∀ n ∈ m.buckets.getD (_map_get_bucket_index m kabs) [],
      m.compare_func n.key kabs ≠ 0) :
    map_get (some m) k = 0 ∧ map_contains (some m) k = 0 ∧
    map_get (some m) k = map_get (some m) kabs ∧
    map_contains (some m) k = map_contains (some m) kabs := by
  obtain ⟨hB, hL, hP, hD⟩ := hI
  have h1 : map_get (some m) k = 0 := by
    rw [map_get_of_mem m hG hB hP hD hk hmem hmatch, hnull]
  have h2 : map_get (some m) kabs = 0 := map_get_absent m hkabs habs
  refine ⟨h1, ?_, by rw [h1, h2], ?_⟩
  · simp [map_contains, h1]
  · simp [map_contains, h1, h2]

theorem null_value_indistinguishable_witness :
    ((¬ (1 : Nat) = 0) ∧ MapNode.mk 1 0 ∈ nullValMap.nodes ∧
      nullValMap.compare_func 1 1 = 0 ∧ (¬ (2 : Nat) = 0) ∧
      (∀ n ∈ nullValMap.buckets.getD (_map_get_bucket_index nullValMap 2) [],
        nullValMap.compare_func n.key 2 ≠ 0)) ∧
    (map_get (some nullValMap) 1 = 0 ∧ map_contains (some nullValMap) 1 = 0 ∧
     map_get (some nullValMap) 1 = map_get (some nullValMap) 2 ∧
     map_contains (some nullValMap) 1 = map_contains (some nullValMap) 2) :=
  ⟨⟨by decide, by decide, by decide, by decide, by decide⟩,
    null_value_indistinguishable nullValMap
      (goodMapFns_fix nullValMap rfl rfl) mapInv_nullValMap
      1 (by decide) (MapNode.mk 1 0) (by decide) (by decide) rfl
      2 (by decide) (by decide)⟩

/-- C2 is refuted as stated: on a concrete one-entry map, a visitor stopping
on its first call makes `map_iterate` return `MAP_FAILURE`, the same result
code that `map_iterate` returns for invalid input (NULL map), so the aborted
outcome is NOT distinguishable from the invalid-input failure outcome. -/
theorem iterate_early_stop_cex :
    (map_iterate (some oneEntryMap) (some (stopAtVisitor 1)) 0).2.2 =
      MapResult.Failure ∧
    (map_iterate (none : Option MapT) (some (stopAtVisitor 1)) 0).2.2 =
      MapResult.Failure ∧
    (map_iterate (some oneEntryMap) (some (stopAtVisitor 1)) 0).2.2 =
      (map_iterate (none : Option MapT) (some (stopAtVisitor 1)) 0).2.2 := by
  refine ⟨?_, rfl, ?_⟩ <;> rfl

/-- C2 (amended): a visitor that signals stop on its k-th call makes
`map_iterate` call the visitor on exactly k entries and return `MAP_FAILURE`,
which is distinct from the clean-completion code `MAP_SUCCESS` but is the
same code the call returns on invalid input. -/
theorem iterate_early_stop_amended (m : MapT) (hB : BasicInv m) (k : Nat)
    (hk1 : 1 ≤ k) (hkN : k ≤ map_size (some m)) :
    ∃ tr, map_iterate (some m) (some (stopAtVisitor k)) 0 =
        (k, tr, MapResult.Failure) ∧
      tr.length = k ∧ MapResult.Failure ≠ MapResult.Success := by
  have hsz : map_size (some m) = m.buckets.flatten.length := hB.2.2
  have hflat : k ≤ 0 + m.buckets.flatten.length := by omega
  obtain ⟨tr, htr, hlen⟩ := iterBuckets_stopAt_hit k m.buckets 0 (by omega) hflat
  refine ⟨tr, ?_, by omega, by decide⟩
  simp only [map_iterate]
  rw [htr]
  simp

theorem iterate_early_stop_amended_witness :
    (BasicInv oneEntryMap ∧ 1 ≤ 1 ∧ 1 ≤ map_size (some oneEntryMap)) ∧
    (∃ tr, map_iterate (some oneEntryMap) (some (stopAtVisitor 1)) 0 =
        (1, tr, MapResult.Failure) ∧
      tr.length = 1 ∧ MapResult.Failure ≠ MapResult.Success) :=
  ⟨⟨mapInv_oneEntryMap.1, by decide, by decide⟩,
    iterate_early_stop_amended oneEntryMap mapInv_oneEntryMap.1 1 (by decide) (by decide)⟩

/-- C8: with a visitor that always continues, `map_iterate` visits exactly
the live entries in storage order — increasing bucket index, chain order
within a bucket — with the visit count equal to `map_size`; and within a
bucket the chain order is most-recent-insert-first because a fresh-key
`map_insert` pushes the new node at the chain head. -/
theorem iterate_completeness_order (m : MapT) (hB : BasicInv m) :
    map_iterate (some m) (some contVisitor) 0 =
      (map_size (some m), m.nodes.map (fun nd => (nd.key, nd.value)),
       MapResult.Success) ∧
    (m.nodes.map (fun nd => (nd.key, nd.value))).length = map_size (some m) ∧
    (∀ (k v : Nat), ¬ k = 0 → (m.size + 1) * 4 ≤ m.capacity * 3 →
      (∀ n ∈ m.buckets.getD (_map_get_bucket_index m k) [],
        m.compare_func n.key k ≠ 0) →
      map_insert true true (some m) k v =
        (some { m with buckets := m.buckets.set (_map_get_bucket_index m k) ((⟨k, v⟩ : MapNode) :: m.buckets.getD (_map_get_bucket_index m k) []), size := m.size + 1 },
         MapResult.Success, [])) := by
  have hsz : map_size (some m) = m.buckets.flatten.length := hB.2.2
  refine ⟨?_, ?_, ?_⟩
  · simp only [map_iterate]
    rw [iterBuckets_cont m.buckets 0, Nat.zero_add]
    show (m.buckets.flatten.length, List.map (fun nd => (nd.key, nd.value)) m.buckets.flatten, MapResult.Success) = _
    rw [hsz]
    rfl
  · rw [List.length_map]
    exact hsz.symm
  · intro k v hk hnr habs
    have hnores : insertMaybeResize true m = (m, MapResult.Success) := by
      unfold insertMaybeResize
      rw [if_neg (by omega)]
    have heq := insertBody_fresh_eq m k v habs
    simp only [map_insert]
    rw [if_neg hk, hnores]
    simpa using heq

theorem iterate_completeness_order_witness :
    BasicInv chainMap8 ∧
    (map_iterate (some chainMap8) (some contVisitor) 0 =
      (map_size (some chainMap8),
       chainMap8.nodes.map (fun nd => (nd.key, nd.value)), MapResult.Success) ∧
    (chainMap8.nodes.map (fun nd => (nd.key, nd.value))).length =
      map_size (some chainMap8) ∧
    (∀ (k v : Nat), ¬ k = 0 → (chainMap8.size + 1) * 4 ≤ chainMap8.capacity * 3 →
      (∀ n ∈ chainMap8.buckets.getD (_map_get_bucket_index chainMap8 k) [],
        chainMap8.compare_func n.key k ≠ 0) →
      map_insert true true (some chainMap8) k v =
        (some { chainMap8 with buckets := chainMap8.buckets.set (_map_get_bucket_index chainMap8 k) ((⟨k, v⟩ : MapNode) :: chainMap8.buckets.getD (_map_get_bucket_index chainMap8 k) []), size := chainMap8.size + 1 },
         MapResult.Success, []))) :=
  ⟨mapInv_chainMap8.1, iterate_completeness_order chainMap8 mapInv_chainMap8.1⟩

/-- C5 is refuted as stated: on a map holding key 1 with stored value NULL
and with the value destructor configured, overwriting key 1 emits NO value
destructor invocation (the C code guards the call with `current->value`), so
the destructor is not invoked exactly once on the old value. -/
theorem overwrite_null_value_cex :
    nullValMap.has_value_free = true ∧
    map_insert true true (some nullValMap) 1 5 =
      (some { nullValMap with buckets := [[], [⟨1, 5⟩], [], [], [], [], [], []] },
       MapResult.Success, []) :=
  ⟨rfl, rfl⟩

/-- C5 (amended): overwriting a key that is already present replaces the
entry's value in place and leaves `size` unchanged; the value destructor (if
configured) is invoked exactly once on the old value provided the old value
is non-NULL (and not at all when the old value is NULL); the key destructor
(if configured) is invoked on the old key if and only if the old and new key
references differ. -/
theorem overwrite_semantics_amended (m : MapT) (k v : Nat) (hk : ¬ k = 0)
    (hB : BasicInv m) (hL : LoadInv m)
    (pre : List MapNode) (node : MapNode) (post : List MapNode)
    (hchain : (insertMaybeResize true m).1.buckets.getD
        (_map_get_bucket_index (insertMaybeResize true m).1 k) [] = pre ++ node :: post)
    (hpre : ∀ n ∈ pre, (insertMaybeResize true m).1.compare_func n.key k ≠ 0)
    (hmatch : (insertMaybeResize true m).1.compare_func node.key k = 0) :
    map_insert true true (some m) k v =
      (some { (insertMaybeResize true m).1 with buckets := (insertMaybeResize true m).1.buckets.set (_map_get_bucket_index (insertMaybeResize true m).1 k) (pre ++ (⟨k, v⟩ : MapNode) :: post) },
       MapResult.Success,
       (if m.has_value_free ∧ node.value ≠ 0 then [FreeEvent.freeValue node.value] else []) ++
       (if m.has_key_free ∧ node.key ≠ k then [FreeEvent.freeKey node.key] else [])) ∧
    (insertStep m k v).size = m.size := by
  obtain ⟨r2, rfns, rB, rsz, _, _, _, _, _, _⟩ := insertMaybeResize_spec m hB hL
  have hunf : map_insert true true (some m) k v =
      insertBody true (insertMaybeResize true m).1 k v := by
    simp only [map_insert]
    rw [if_neg hk, r2]
    simp
  have heq := insertBody_update_eq true (insertMaybeResize true m).1 k v hchain hpre hmatch
  refine ⟨?_, ?_⟩
  · rw [hunf, heq, ← rfns.2.2.2, ← rfns.2.2.1]
  · have hstep := insertStep_of_eq (hunf.trans heq)
    rw [hstep]
    exact rsz

theorem overwrite_semantics_amended_witness :
    ((¬ (1 : Nat) = 0) ∧ BasicInv oneEntryMap ∧ LoadInv oneEntryMap ∧
      (insertMaybeResize true oneEntryMap).1.buckets.getD
        (_map_get_bucket_index (insertMaybeResize true oneEntryMap).1 1) [] =
        [] ++ (⟨1, 3⟩ : MapNode) :: [] ∧
      (insertMaybeResize true oneEntryMap).1.compare_func 1 1 = 0) ∧
    (map_insert true true (some oneEntryMap) 1 5 =
      (some { (insertMaybeResize true oneEntryMap).1 with buckets := (insertMaybeResize true oneEntryMap).1.buckets.set (_map_get_bucket_index (insertMaybeResize true oneEntryMap).1 1) ([] ++ (⟨1, 5⟩ : MapNode) :: []) },
       MapResult.Success,
       (if oneEntryMap.has_value_free ∧ (⟨1, 3⟩ : MapNode).value ≠ 0 then [FreeEvent.freeValue (⟨1, 3⟩ : MapNode).value] else []) ++
       (if oneEntryMap.has_key_free ∧ (⟨1, 3⟩ : MapNode).key ≠ 1 then [FreeEvent.freeKey (⟨1, 3⟩ : MapNode).key] else [])) ∧
     (insertStep oneEntryMap 1 5).size = oneEntryMap.size) :=
  ⟨⟨by decide, mapInv_oneEntryMap.1, mapInv_oneEntryMap.2.1, by decide, by decide⟩,
    overwrite_semantics_amended oneEntryMap 1 5 (by decide)
      mapInv_oneEntryMap.1 mapInv_oneEntryMap.2.1
      [] (⟨1, 3⟩ : MapNode) [] (by decide) (by decide) (by decide)⟩

/-- C6: deleting a key that is live in the map succeeds, after which
`map_get` reports absence (NULL), `map_contains` reports 0, and `size` has
decreased by exactly one. -/
theorem delete_removes_reachability (m : MapT) (hG : GoodMapFns m)
    (hI : MapInv m) (k : Nat) (hk : ¬ k = 0) (node : MapNode)
    (hmem : node ∈ m.nodes) (hmatch : m.compare_func node.key k = 0) :
    ∃ m2, (map_delete (some m) k).1 = some m2 ∧
      (map_delete (some m) k).2.1 = MapResult.Success ∧
      map_get (some m2) k = 0 ∧ map_contains (some m2) k = 0 ∧
      m2.size + 1 = m.size := by
  obtain ⟨⟨hlen, hcap, hsz⟩, hL, hP, hD⟩ := hI
  obtain ⟨j, hj, hjmem⟩ := mem_flatten_getD hmem
  have hj2 : j = _map_get_bucket_index m k := by
    have hpl := hP j hj node hjmem
    rw [← hpl]
    show m.hash_func node.key % m.capacity = m.hash_func k % m.capacity
    rw [hG.2.2.2 _ _ hmatch]
  rw [hj2] at hjmem
  rcases hcd : chainDelete m k (m.buckets.getD (_map_get_bucket_index m k) [])
    with _ | out
  · exact absurd hmatch (chainDelete_eq_none.mp hcd node hjmem)
  · obtain ⟨pre, node2, post, hc, hpre2, hmatch2, hout⟩ := chainDelete_eq_some hcd
    subst hout
    have heq := map_delete_found_eq m hk hc hpre2 hmatch2
    have hmemb : m.buckets.getD (_map_get_bucket_index m k) [] ∈ m.buckets :=
      getD_mem_of_lt _ (bucket_index_lt m hlen hcap k) _
    have hDf : (m.buckets.flatten).Pairwise
        (fun a b => m.compare_func a.key b.key ≠ 0) := hD
    have hpwchain := (List.pairwise_flatten.mp hDf).1 _ hmemb
    rw [hc] at hpwchain
    obtain ⟨_, hcons, _⟩ := List.pairwise_append.mp hpwchain
    rw [List.pairwise_cons] at hcons
    have habs : ∀ n ∈ pre ++ post, m.compare_func n.key k ≠ 0 := by
      intro n hn
      rcases List.mem_append.mp hn with h1 | h2
      · exact hpre2 n h1
      · intro h0
        exact hcons.1 n h2 (hG.2.2.1 _ _ _ hmatch2 (hG.2.1 _ _ h0))
    have hget : map_get
        (some { m with buckets := m.buckets.set (_map_get_bucket_index m k) (pre ++ post), size := m.size - 1 }) k = 0 := by
      apply map_get_absent _ hk
      intro n hn
      have hchain2 : ({ m with buckets := m.buckets.set (_map_get_bucket_index m k) (pre ++ post), size := m.size - 1 } : MapT).buckets.getD
          (_map_get_bucket_index ({ m with buckets := m.buckets.set (_map_get_bucket_index m k) (pre ++ post), size := m.size - 1 } : MapT) k) [] = pre ++ post := by
        show (m.buckets.set (_map_get_bucket_index m k) (pre ++ post)).getD
          (_map_get_bucket_index m k) [] = pre ++ post
        exact getD_set_self m.buckets (bucket_index_lt m hlen hcap k) _ _
      rw [hchain2] at hn
      exact habs n hn
    have hpos : 0 < m.nodes.length := List.length_pos.mpr (List.ne_nil_of_mem hmem)
    refine ⟨_, by rw [heq], by rw [heq], hget, ?_, ?_⟩
    · simp [map_contains, hget]
    · show m.size - 1 + 1 = m.size
      omega

theorem delete_removes_reachability_witness :
    ((¬ (1 : Nat) = 0) ∧ MapNode.mk 1 3 ∈ oneEntryMap.nodes ∧
      oneEntryMap.compare_func 1 1 = 0) ∧
    (∃ m2, (map_delete (some oneEntryMap) 1).1 = some m2 ∧
      (map_delete (some oneEntryMap) 1).2.1 = MapResult.Success ∧
      map_get (some m2) 1 = 0 ∧ map_contains (some m2) 1 = 0 ∧
      m2.size + 1 = oneEntryMap.size) :=
  ⟨⟨by decide, by decide, by decide⟩,
    delete_removes_reachability oneEntryMap
      (goodMapFns_fix oneEntryMap rfl rfl) mapInv_oneEntryMap
      1 (by decide) (MapNode.mk 1 3) (by decide) (by decide)⟩

/-! ## Insert sequences and the load factor -/

theorem map_create_inv {cap0 : Nat} {hf : Nat → Nat} {cf : Nat → Nat → Int}
    {kf vf : Bool} {m0 : MapT}
    (h : map_create true true cap0 (some hf) (some cf) kf vf = some m0) :
    BasicInv m0 ∧ LoadInv m0 ∧ Placed m0 ∧ DistinctKeys m0 := by
  have h2 : ({ buckets := List.replicate (if cap0 > 0 then cap0 else INITIAL_CAPACITY) [],
               capacity := (if cap0 > 0 then cap0 else INITIAL_CAPACITY), size := 0,
               hash_func := hf, compare_func := cf,
               has_key_free := kf, has_value_free := vf } : MapT) = m0 := by
    simpa [map_create] using h
  subst h2
  refine ⟨⟨by simp, ?_, ?_⟩, ?_, ?_, ?_⟩
  · show 0 < (if cap0 > 0 then cap0 else INITIAL_CAPACITY)
    unfold INITIAL_CAPACITY
    split <;> omega
  · show (0 : Nat) = _
    simp [MapT.nodes, flatten_replicate_nil]
  · show 4 * 0 ≤ _
    omega
  · intro i hi n hn
    rw [getD_replicate_nil] at hn
    cases hn
  · show (List.replicate _ ([] : List MapNode)).flatten.Pairwise _
    rw [flatten_replicate_nil]
    exact List.Pairwise.nil

theorem insertTrace_props (kvs : List (Nat × Nat)) :
    ∀ (m : MapT), BasicInv m → LoadInv m →
    (∀ s ∈ insertTrace m kvs, BasicInv s ∧ LoadInv s) ∧
    (insertTrace m kvs).Chain'
      (fun a b => a.capacity ≤ b.capacity ∧
        (b.capacity = a.capacity ∨ b.capacity = a.capacity * RESIZE_FACTOR)) := by
  induction kvs with
  | nil =>
    intro m hB hL
    constructor
    · intro s hs
      simp only [insertTrace, List.scanl, List.mem_singleton] at hs
      subst hs
      exact ⟨hB, hL⟩
    · simp [insertTrace, List.scanl]
  | cons kv rest ih =>
    intro m hB hL
    obtain ⟨hB2, hL2, hcap, hle⟩ := insertStep_basic m kv.1 kv.2 hB hL
    obtain ⟨ihall, ihchain⟩ := ih (insertStep m kv.1 kv.2) hB2 hL2
    have hsc : insertTrace m (kv :: rest) =
        m :: insertTrace (insertStep m kv.1 kv.2) rest := rfl
    rw [hsc]
    constructor
    · intro s hs
      rcases List.mem_cons.mp hs with rfl | hs2
      · exact ⟨hB, hL⟩
      · exact ihall s hs2
    · rw [List.chain'_cons']
      refine ⟨?_, ihchain⟩
      intro y hy
      have hhead : (insertTrace (insertStep m kv.1 kv.2) rest).head? =
          some (insertStep m kv.1 kv.2) := by
        cases rest <;> rfl
      rw [hhead] at hy
      have hyeq : y = insertStep m kv.1 kv.2 := by
        have := hy
        simp only [Option.mem_def, Option.some_inj] at this
        exact this.symm
      subst hyeq
      exact ⟨hle, hcap⟩

/-- C3: starting from any freshly created map, along any sequence of
`map_insert` calls (with allocations succeeding) every intermediate state
satisfies `size / capacity ≤ 0.75`, and the capacity never decreases: at
each step it either stays the same or is multiplied by the fixed factor
`RESIZE_FACTOR = 2`. -/
theorem load_factor_invariant (cap0 : Nat) (hf : Nat → Nat) (cf : Nat → Nat → Int)
    (kf vf : Bool) (m0 : MapT)
    (hcreate : map_create true true cap0 (some hf) (some cf) kf vf = some m0)
    (kvs : List (Nat × Nat)) :
    (∀ s ∈ insertTrace m0 kvs, (s.size : ℚ) / (s.capacity : ℚ) ≤ 3 / 4) ∧
    (insertTrace m0 kvs).Chain'
      (fun a b => a.capacity ≤ b.capacity ∧
        (b.capacity = a.capacity ∨ b.capacity = a.capacity * RESIZE_FACTOR)) := by
  obtain ⟨hB0, hL0, _, _⟩ := map_create_inv hcreate
  obtain ⟨hall, hchain⟩ := insertTrace_props kvs m0 hB0 hL0
  refine ⟨?_, hchain⟩
  intro s hs
  obtain ⟨hBs, hLs⟩ := hall s hs
  have hc : (0 : ℚ) < (s.capacity : ℚ) := by exact_mod_cast hBs.2.1
  rw [div_le_div_iff₀ hc (by norm_num : (0 : ℚ) < 4)]
  have hnat : s.size * 4 ≤ 3 * s.capacity := by
    have := hLs
    unfold LoadInv at this
    omega
  exact_mod_cast hnat

theorem load_factor_invariant_witness :
    map_create true true 0 (some natHash) (some natCmp) false false =
      some emptyMap16 ∧
    ((∀ s ∈ insertTrace emptyMap16 [(1, 5), (2, 6), (3, 7)],
        (s.size : ℚ) / (s.capacity : ℚ) ≤ 3 / 4) ∧
      (insertTrace emptyMap16 [(1, 5), (2, 6), (3, 7)]).Chain'
        (fun a b => a.capacity ≤ b.capacity ∧
          (b.capacity = a.capacity ∨ b.capacity = a.capacity * RESIZE_FACTOR))) :=
  ⟨rfl, load_factor_invariant 0 natHash natCmp false false emptyMap16 rfl
    [(1, 5), (2, 6), (3, 7)]⟩

/-- C1: for a well-formed live map whose hash/compare callbacks obey their
documented contract, after `map_insert` of (k, v) followed by any sequence of
insert/delete operations none of which matches k under `compare_func`
(so (k, v) is never deleted or overwritten), `map_get` on k returns v —
including across any capacity-doubling resizes those operations trigger. -/
theorem round_trip_insert_get (m : MapT) (hG : GoodMapFns m) (hI : MapInv m)
    (k v : Nat) (hk : ¬ k = 0) (ops : List MapOp)
    (havoid : ∀ op ∈ ops, avoidsKey m.compare_func k op) :
    map_get (some (applyOps (insertStep m k v) ops)) k = v := by
  obtain ⟨hfns0, hI1, hmem0, _⟩ := insertStep_full m k v hk hG hI
  suffices h : ∀ (ops2 : List MapOp) (m1 : MapT), SameFns m m1 → MapInv m1 →
      (∀ op ∈ ops2, avoidsKey m.compare_func k op) →
      MapNode.mk k v ∈ m1.nodes →
      map_get (some (applyOps m1 ops2)) k = v by
    exact h ops (insertStep m k v) hfns0 hI1 havoid hmem0
  intro ops2
  induction ops2 with
  | nil =>
    intro m1 hfns hI1 _ hmem
    obtain ⟨hB1, hL1, hP1, hD1⟩ := hI1
    have hG1 := goodMapFns_of_sameFns hfns hG
    have hmatch : m1.compare_func (MapNode.mk k v).key k = 0 := by
      show m1.compare_func k k = 0
      rw [hfns.2.1]
      exact hG.1 k
    have := map_get_of_mem m1 hG1 hB1 hP1 hD1 hk hmem hmatch
    simpa using this
  | cons op rest ih =>
    intro m1 hfns hI1 havoid1 hmem
    have hG1 := goodMapFns_of_sameFns hfns hG
    have hav : avoidsKey m.compare_func k op := havoid1 op (by simp)
    have havrest : ∀ o ∈ rest, avoidsKey m.compare_func k o :=
      fun o ho => havoid1 o (by simp [ho])
    cases op with
    | ins k2 v2 =>
      by_cases hk2 : k2 = 0
      · subst hk2
        have happ : applyOps m1 (MapOp.ins 0 v2 :: rest) = applyOps m1 rest := by
          show applyOps (insertStep m1 0 v2) rest = applyOps m1 rest
          rw [insertStep_zero]
        rw [happ]
        exact ih m1 hfns hI1 havrest hmem
      · obtain ⟨hfns2, hI2, _, hsurv⟩ := insertStep_full m1 k2 v2 hk2 hG1 hI1
        have hnk : m1.compare_func (MapNode.mk k v).key k2 ≠ 0 := by
          show m1.compare_func k k2 ≠ 0
          rw [hfns.2.1]
          intro h0
          exact hav (hG.2.1 _ _ h0)
        have hmem2 := hsurv _ hmem hnk
        exact ih (insertStep m1 k2 v2) (sameFns_trans hfns hfns2) hI2 havrest hmem2
    | del k2 =>
      obtain ⟨hfns2, hI2, hsurv⟩ := deleteStep_full m1 k2 hG1 hI1
      have hnk : m1.compare_func (MapNode.mk k v).key k2 ≠ 0 := by
        show m1.compare_func k k2 ≠ 0
        rw [hfns.2.1]
        intro h0
        exact hav (hG.2.1 _ _ h0)
      have hmem2 := hsurv _ hmem hnk
      exact ih (deleteStep m1 k2) (sameFns_trans hfns hfns2) hI2 havrest hmem2

theorem round_trip_insert_get_witness :
    ((¬ (1 : Nat) = 0) ∧
      (∀ op ∈ [MapOp.ins 2 9, MapOp.ins 18 11, MapOp.del 2],
        avoidsKey emptyMap16.compare_func 1 op)) ∧
    map_get (some (applyOps (insertStep emptyMap16 1 7)
      [MapOp.ins 2 9, MapOp.ins 18 11, MapOp.del 2])) 1 = 7 :=
  ⟨⟨by decide, by
      intro op hop
      simp only [List.mem_cons, List.mem_singleton, List.not_mem_nil, or_false] at hop
      rcases hop with rfl | rfl | rfl
      · show natCmp 2 1 ≠ 0
        decide
      · show natCmp 18 1 ≠ 0
        decide
      · show natCmp 2 1 ≠ 0
        decide⟩,
    round_trip_insert_get emptyMap16 (goodMapFns_fix emptyMap16 rfl rfl)
      mapInv_emptyMap16 1 7 (by decide) [MapOp.ins 2 9, MapOp.ins 18 11, MapOp.del 2]
      (by
        intro op hop
        simp only [List.mem_cons, List.mem_singleton, List.not_mem_nil, or_false] at hop
        rcases hop with rfl | rfl | rfl
        · show natCmp 2 1 ≠ 0
          decide
        · show natCmp 18 1 ≠ 0
          decide
        · show natCmp 2 1 ≠ 0
          decide)⟩
